import Mathlib

/-!
# Verification of the uxplain component index, search engine and correlator

Shallow embedding of the core of the `uxplain` repository:

* `ProjectIndexer` (project indexing and persistence) from `src/tools/ui-context.ts`
  (the file also contains the `ProjectIndexer` class),
* `IndexSearchEngine` (relevance/similarity scoring, match highlighting,
  usage graph) from `index-search-engine.ts`,
* `VisualCodeCorrelator` (layered matching strategies, confidence scores,
  responsive issue detection) from `src/tools/visual-code-correlator.ts`.

JavaScript numbers are modelled as `Int` where the code only ever produces
integers (relevance scores, bounds) and as `ℚ` where fractional values arise
(confidence and similarity scores).  JavaScript strings are modelled as Lean
`String`; `Array.prototype.sort` (stable in ECMAScript) is modelled by a
stable insertion sort; `Map` is modelled by an association list with
insertion-order `set`/`get` semantics.
-/

/-! ## JavaScript string primitives -/

/-- `charsStartWith hay needle`: the character list `hay` starts with `needle`. -/
def charsStartWith : List Char → List Char → Bool
  | _, [] => true
  | [], _ :: _ => false
  | c :: cs, d :: ds => c = d && charsStartWith cs ds

/-- Position search underlying `String.prototype.indexOf`: the first offset
(counted from `k`) at which `needle` occurs in `hay`, if any. -/
def indexOfChars : List Char → List Char → Nat → Option Nat
  | [], needle, k => if charsStartWith [] needle then some k else none
  | c :: t, needle, k =>
    if charsStartWith (c :: t) needle then some k else indexOfChars t needle (k + 1)

/-- Model of `hay.indexOf(needle)` (JavaScript), with `none` for `-1`. -/
def jsIndexOf (hay needle : String) : Option Nat :=
  indexOfChars hay.toList needle.toList 0

/-- Model of `hay.includes(needle)` (JavaScript substring containment). -/
def jsIncludes (hay needle : String) : Bool :=
  (jsIndexOf hay needle).isSome

/-- Model of `str.substring(start, stop)` (JavaScript). -/
def jsSubstring (s : String) (start stop : Nat) : String :=
  String.mk ((s.toList.drop start).take (stop - start))

/-- Model of `str.toLowerCase()` (JavaScript): character-wise lowering. -/
def jsToLower (s : String) : String :=
  String.mk (s.toList.map Char.toLower)

/-! ## Data model (`project-indexer.ts` interfaces) -/

/-- `PropDefinition` from `project-indexer.ts`. -/
structure PropDefinition where
  name : String
  type : String
  required : Bool
  defaultValue : Option String
  description : Option String
deriving DecidableEq, Repr

/-- `BoundingBox` from `project-indexer.ts`. -/
structure BoundingBox where
  x : Int
  y : Int
  width : Int
  height : Int
deriving DecidableEq, Repr

/-- The `screenshots` record of `ComponentIndex`/`PageIndex` (all fields optional). -/
structure ScreenshotSet where
  desktop : Option String
  tablet : Option String
  mobile : Option String
deriving DecidableEq, Repr

/-- The `bounds` record of `ComponentIndex` (all fields optional). -/
structure BoundsSet where
  desktop : Option BoundingBox
  tablet : Option BoundingBox
  mobile : Option BoundingBox
deriving DecidableEq, Repr

/-- The `styles` record of `ComponentIndex`: raw css plus computed styles.
The JavaScript object `computedStyles` is modelled as an association list
(JavaScript object keys are unique; lookups take the first binding). -/
structure StyleRecord where
  css : String
  computedStyles : List (String × String)
deriving DecidableEq, Repr

/-- A JavaScript `Date`, identified by its epoch-milliseconds value. -/
structure JsDate where
  millis : Int
deriving DecidableEq, Repr

/-- `ComponentIndex` from `project-indexer.ts`: one indexed component. -/
structure ComponentIndex where
  id : String
  name : String
  filePath : String
  sourceCode : String
  screenshots : ScreenshotSet
  bounds : BoundsSet
  props : List PropDefinition
  imports : List String
  dependencies : List String
  styles : StyleRecord
  usedIn : List String
  children : List String
  description : String
  tags : List String
  lastModified : JsDate
deriving DecidableEq, Repr

/-- `PageIndex` from `project-indexer.ts`. -/
structure PageIndex where
  id : String
  name : String
  route : String
  filePath : String
  components : List String
  screenshots : ScreenshotSet
deriving DecidableEq, Repr

/-- The `framework` enum of the index metadata. -/
inductive Framework where
  | react
  | vue
  | angular
  | unknownFw
deriving DecidableEq, Repr

/-- The `metadata` record of `ProjectIndex`. -/
structure IndexMetadata where
  projectPath : String
  framework : Framework
  lastIndexed : JsDate
  componentsCount : Int
  pagesCount : Int
deriving DecidableEq, Repr

/-- `ProjectIndex` from `project-indexer.ts` (the optional `embeddings` field is
never populated by the indexer and is omitted). -/
structure ProjectIndex where
  metadata : IndexMetadata
  components : List ComponentIndex
  pages : List PageIndex
deriving DecidableEq, Repr

/-! ## Search engine data model (`index-search-engine.ts`) -/

/-- The `componentType` field of a `SearchQuery`. -/
inductive ComponentType where
  | functional
  | classType
  | anyType
deriving DecidableEq, Repr

/-- `SearchQuery` from `index-search-engine.ts`; absent (`undefined`) fields are
`none`. -/
structure SearchQuery where
  text : Option String
  tags : Option (List String)
  framework : Option String
  componentType : Option ComponentType
  hasProps : Option Bool
  hasSideEffects : Option Bool
  usedIn : Option (List String)
deriving DecidableEq, Repr

/-- The query with every field absent (`{}` in JavaScript). -/
def emptyQuery : SearchQuery :=
  ⟨none, none, none, none, none, none, none⟩

/-- One entry of `SearchResult.matches`. -/
structure MatchRecord where
  field : String
  snippet : String
  highlightStart : Int
  highlightEnd : Int
deriving DecidableEq, Repr

/-- `SearchResult` from `index-search-engine.ts`. -/
structure SearchResult where
  component : ComponentIndex
  relevanceScore : Int
  «matches» : List MatchRecord
deriving DecidableEq, Repr

/-! ## Relevance scoring (`IndexSearchEngine.calculateRelevanceScore`)

The JavaScript method accumulates `score` block by block; each block below is
one `score += …` / `score -= …` section, and the final result is
`Math.max(0, score)`. -/

/-- Text block of `calculateRelevanceScore`: `+10` for a (case-insensitive)
name match, `+5` for a description match, `+2` for a source-code match and
`+3` per prop whose name or type matches.  The `if (query.text)` guard makes
the empty string behave like an absent query (falsy). -/
def textScore (c : ComponentIndex) (q : SearchQuery) : Int :=
  match q.text with
  | none => 0
  | some t =>
    if t = "" then 0
    else
      let searchText := jsToLower t
      (if jsIncludes (jsToLower c.name) searchText then 10 else 0)
        + (if jsIncludes (jsToLower c.description) searchText then 5 else 0)
        + (if jsIncludes (jsToLower c.sourceCode) searchText then 2 else 0)
        + 3 * ((c.props.filter (fun p =>
            jsIncludes (jsToLower p.name) searchText
              || jsIncludes (jsToLower p.type) searchText)).length : Int)

/-- Tag block of `calculateRelevanceScore`: `+4` per component tag contained in
`query.tags`. -/
def tagScore (c : ComponentIndex) (q : SearchQuery) : Int :=
  match q.tags with
  | none => 0
  | some qtags =>
    if qtags.length > 0 then
      4 * ((c.tags.filter (fun tag => qtags.contains tag)).length : Int)
    else 0

/-- The `isFunctional` heuristic of the component-type block. -/
def isFunctionalSource (c : ComponentIndex) : Bool :=
  jsIncludes c.sourceCode "function " || jsIncludes c.sourceCode "const "
    || jsIncludes c.sourceCode "=>"

/-- The `isClass` heuristic of the component-type block. -/
def isClassSource (c : ComponentIndex) : Bool :=
  jsIncludes c.sourceCode "class " || jsIncludes c.sourceCode "extends"

/-- Component-type block of `calculateRelevanceScore`: `+2` when the requested
type matches the heuristic, `-5` otherwise; skipped for `'any'` or an absent
filter. -/
def typeScore (c : ComponentIndex) (q : SearchQuery) : Int :=
  match q.componentType with
  | none => 0
  | some ComponentType.anyType => 0
  | some ComponentType.functional => if isFunctionalSource c then 2 else -5
  | some ComponentType.classType => if isClassSource c then 2 else -5

/-- Props-filter block of `calculateRelevanceScore`: `+2` when
`query.hasProps` equals `props.length > 0`, `-3` otherwise. -/
def propsScore (c : ComponentIndex) (q : SearchQuery) : Int :=
  match q.hasProps with
  | none => 0
  | some b => if b = decide (c.props.length > 0) then 2 else -3

/-- Side-effects-filter block of `calculateRelevanceScore`: `+2` when
`query.hasSideEffects` equals the presence of the `side-effects` tag, `-3`
otherwise. -/
def sideEffectsScore (c : ComponentIndex) (q : SearchQuery) : Int :=
  match q.hasSideEffects with
  | none => 0
  | some b => if b = c.tags.contains "side-effects" then 2 else -3

/-- Usage-filter block of `calculateRelevanceScore`: `+3` per `usedIn` context
contained in `query.usedIn`. -/
def usedInScore (c : ComponentIndex) (q : SearchQuery) : Int :=
  match q.usedIn with
  | none => 0
  | some us =>
    if us.length > 0 then
      3 * ((c.usedIn.filter (fun usage => us.contains usage)).length : Int)
    else 0

/-- `IndexSearchEngine.calculateRelevanceScore`: the additive score of the six
blocks, clamped to `≥ 0` by `Math.max(0, score)`. -/
def calculateRelevanceScore (c : ComponentIndex) (q : SearchQuery) : Int :=
  max 0 (textScore c q + tagScore c q + typeScore c q + propsScore c q
    + sideEffectsScore c q + usedInScore c q)

/-! ## Match highlighting (`IndexSearchEngine.findMatches`) -/

/-- One iteration of the `findMatches` field loop: case-insensitive first
occurrence, ±50-character snippet window taken from the original field
content, and highlight offsets relative to the window. -/
def fieldMatch (fieldName content searchText : String) : List MatchRecord :=
  match jsIndexOf (jsToLower content) searchText with
  | none => []
  | some index =>
    let start := index - 50
    let stop := min (jsToLower content).length (index + searchText.length + 50)
    [⟨fieldName, jsSubstring content start stop,
      (index : Int) - (start : Int),
      (index : Int) - (start : Int) + (searchText.length : Int)⟩]

/-- `IndexSearchEngine.findMatches`: match records for the fields `name`,
`description` and `sourceCode`, in that order; empty when the query has no
text. -/
def findMatches (c : ComponentIndex) (q : SearchQuery) : List MatchRecord :=
  match q.text with
  | none => []
  | some t =>
    if t = "" then []
    else
      let searchText := jsToLower t
      fieldMatch "name" c.name searchText
        ++ fieldMatch "description" c.description searchText
        ++ fieldMatch "sourceCode" c.sourceCode searchText

/-! ## Search (`IndexSearchEngine.searchComponents`)

`Array.prototype.sort` with the comparator
`(a, b) => b.relevanceScore - a.relevanceScore` is a stable descending sort;
it is modelled by a stable insertion sort processing the list from the right:
each element is inserted before the already-placed elements of score `≤` its
own (all of which come later in the original list) and after those of
strictly greater score, which yields exactly the stable descending order. -/

/-- Stable descending insertion for `SearchResult`s: skip the existing
elements of strictly greater score, stop at the first one of score `≤` the
inserted element's. -/
def insertDesc (r : SearchResult) : List SearchResult → List SearchResult
  | [] => [r]
  | x :: xs =>
    if x.relevanceScore ≤ r.relevanceScore then r :: x :: xs
    else x :: insertDesc r xs

/-- Stable sort of search results, descending by `relevanceScore`. -/
def sortByScoreDesc : List SearchResult → List SearchResult
  | [] => []
  | x :: xs => insertDesc x (sortByScoreDesc xs)

/-- The result list accumulated by the `searchComponents` loop, in the order
of `index.components`: one result per component with positive relevance. -/
def searchResultsUnsorted (idx : ProjectIndex) (q : SearchQuery) : List SearchResult :=
  idx.components.filterMap (fun c =>
    let relevanceScore := calculateRelevanceScore c q
    if relevanceScore > 0 then some ⟨c, relevanceScore, findMatches c q⟩ else none)

/-- `IndexSearchEngine.searchComponents`. -/
def searchComponents (idx : ProjectIndex) (q : SearchQuery) : List SearchResult :=
  sortByScoreDesc (searchResultsUnsorted idx q)

/-! ## Levenshtein distance (`IndexSearchEngine.levenshteinDistance`)

The JavaScript method fills a `(str2.length+1) × (str1.length+1)` matrix with
`matrix[0][j] = j`, `matrix[i][0] = i` and, for `i, j ≥ 1`,
`matrix[i][j] = matrix[i-1][j-1]` when `str2[i-1] === str1[j-1]` and otherwise
`min(matrix[i-1][j-1]+1, matrix[i][j-1]+1, matrix[i-1][j]+1)`.  Each cell is
written once and depends only on earlier cells, so the matrix is embedded as
the recursively defined cell function `levEntry`. -/

/-- Inner loop of the dynamic program (`for j` at fixed row `i + 1`): given
the previous row `prev = matrix[i]` as a function of `j`, compute
`matrix[i+1][j]`. -/
def levRowStep (s1 s2 : List Char) (i : Nat) (prev : Nat → Nat) : Nat → Nat
  | 0 => i + 1
  | j + 1 =>
    if s2[i]? = s1[j]? then prev j
    else
      min (prev j + 1)
        (min (levRowStep s1 s2 i prev j + 1) (prev (j + 1) + 1))

/-- Outer loop of the dynamic program (`for i`): `matrix[i]` as a function of
`j` (`matrix[0][j] = j`). -/
def levRowFun (s1 s2 : List Char) : Nat → Nat → Nat
  | 0 => fun j => j
  | i + 1 => levRowStep s1 s2 i (levRowFun s1 s2 i)

/-- Cell `matrix[i][j]` of the dynamic program in
`IndexSearchEngine.levenshteinDistance`, for `str1 = s1` and `str2 = s2`:
`matrix[0][j] = j`, `matrix[i][0] = i` and, for `i, j ≥ 1`,
`matrix[i][j] = matrix[i-1][j-1]` when `str2[i-1] === str1[j-1]`, else
`min(matrix[i-1][j-1]+1, matrix[i][j-1]+1, matrix[i-1][j]+1)` (see
`levEntry_zero_left`, `levEntry_zero_right` and `levEntry_succ_succ`, which
hold definitionally). -/
def levEntry (s1 s2 : List Char) (i j : Nat) : Nat :=
  levRowFun s1 s2 i j

/-- `IndexSearchEngine.levenshteinDistance`: the bottom-right matrix cell. -/
def levenshteinDistance (str1 str2 : String) : Nat :=
  levEntry str1.toList str2.toList str2.toList.length str1.toList.length

/-- Specification-side definition: the textbook Levenshtein edit distance,
by peeling leading characters (cost 1 for insertion, deletion and
substitution).  This is the mathematical distance that the matrix program is
verified against. -/
def levenshteinSpec : List Char → List Char → Nat
  | [], ys => ys.length
  | x :: xs, [] => (x :: xs).length
  | x :: xs, y :: ys =>
    if x = y then levenshteinSpec xs ys
    else
      1 + min (levenshteinSpec xs ys)
        (min (levenshteinSpec xs (y :: ys)) (levenshteinSpec (x :: xs) ys))
termination_by xs ys => xs.length + ys.length

/-- `IndexSearchEngine.calculateStringSimilarity`: normalised Levenshtein
similarity `(longer.length - distance) / longer.length`, and `1` when both
strings are empty. -/
def calculateStringSimilarity (str1 str2 : String) : ℚ :=
  let longer := if str1.length > str2.length then str1 else str2
  let shorter := if str1.length > str2.length then str2 else str1
  if longer.length = 0 then 1
  else ((longer.length : ℚ) - (levenshteinDistance longer shorter : ℚ))
    / (longer.length : ℚ)

/-! ## Similarity scoring (`IndexSearchEngine.calculateSimilarityScore`) -/

/-- The `similarityType` parameter. -/
inductive SimilarityType where
  | visual
  | semantic
  | usage
deriving DecidableEq, Repr

/-- `IndexSearchEngine.calculateSemanticSimilarity`: weighted sum of common
tags, common prop types, common imports and name similarity, clamped to `1`
by `Math.min`. -/
def calculateSemanticSimilarity (comp1 comp2 : ComponentIndex) : ℚ :=
  let commonTags := comp1.tags.filter (fun tag => comp2.tags.contains tag)
  let commonPropTypes := (comp1.props.map (fun p => p.type)).filter
    (fun ty => comp2.props.any (fun p => p.type = ty))
  let commonImports := comp1.imports.filter (fun imp => comp2.imports.contains imp)
  let nameSimilarity := calculateStringSimilarity comp1.name comp2.name
  min 1 ((commonTags.length : ℚ) * (2 / 10) + (commonPropTypes.length : ℚ) * (15 / 100)
    + (commonImports.length : ℚ) * (1 / 10) + nameSimilarity * (3 / 10))

/-- `IndexSearchEngine.calculateUsageSimilarity`: shared usage contexts (from
`comp1.usedIn`, with multiplicity) over the size of the *set* union of both
context lists (`new Set([...1, ...2]).size`); `0` when the union is empty. -/
def calculateUsageSimilarity (comp1 comp2 : ComponentIndex) : ℚ :=
  let commonUsageContexts := comp1.usedIn.filter
    (fun context => comp2.usedIn.contains context)
  let totalContexts := ((comp1.usedIn ++ comp2.usedIn).dedup).length
  if totalContexts = 0 then 0
  else (commonUsageContexts.length : ℚ) / (totalContexts : ℚ)

/-- Lookup in a computed-styles object (`styles[key]`, `none` for absent). -/
def styleLookup (styles : List (String × String)) (key : String) : Option String :=
  (styles.find? (fun p => p.1 = key)).map (fun p => p.2)

/-- `IndexSearchEngine.calculateVisualSimilarity`: proportion of keys in the
set union of both computed-style objects whose values agree (`===`, which on
the key set of the union matches `Option` equality of the lookups); `0` when
there are no keys. -/
def calculateVisualSimilarity (comp1 comp2 : ComponentIndex) : ℚ :=
  let styles1 := comp1.styles.computedStyles
  let styles2 := comp2.styles.computedStyles
  let styleKeys := ((styles1.map (fun p => p.1)) ++ (styles2.map (fun p => p.1))).dedup
  let similarStyles := (styleKeys.filter
    (fun key => styleLookup styles1 key == styleLookup styles2 key)).length
  if styleKeys.length > 0 then (similarStyles : ℚ) / (styleKeys.length : ℚ) else 0

/-- `IndexSearchEngine.calculateSimilarityScore`: dispatch on the mode. -/
def calculateSimilarityScore (comp1 comp2 : ComponentIndex)
    (type : SimilarityType) : ℚ :=
  match type with
  | SimilarityType.semantic => calculateSemanticSimilarity comp1 comp2
  | SimilarityType.usage => calculateUsageSimilarity comp1 comp2
  | SimilarityType.visual => calculateVisualSimilarity comp1 comp2

/-! ## Usage graph (`IndexSearchEngine.getComponentUsageGraph`)

The JavaScript method first stores, for every component, the *array object*
`component.usedIn` into the `Map` (`usageGraph.set(component.id,
component.usedIn)`); the second loop retrieves that same array object and
`push`es page ids into it — an in-place mutation of the loaded index.  The
embedding makes the aliasing explicit: a graph entry is either a pointer
`UsageRef.comp i` to the `usedIn` array of `components[i]`, or a detached
array (the `usageGraph.get(...) || []` fallback, which can only arise for a
key that was never seeded). -/

/-- A `Map` value in `getComponentUsageGraph`: either an alias of
`components[i].usedIn` or a detached array. -/
inductive UsageRef where
  | comp (i : Nat)
  | detached (l : List String)
deriving DecidableEq, Repr

/-- JavaScript `Map.prototype.set`: update the value in place if the key
exists (insertion order kept), else append the binding. -/
def mapSet {α : Type} (m : List (String × α)) (k : String) (v : α) :
    List (String × α) :=
  match m with
  | [] => [(k, v)]
  | (k0, v0) :: rest => if k0 = k then (k0, v) :: rest else (k0, v0) :: mapSet rest k v

/-- JavaScript `Map.prototype.get` (`none` for `undefined`). -/
def mapGet {α : Type} (m : List (String × α)) (k : String) : Option α :=
  (m.find? (fun p => p.1 = k)).map (fun p => p.2)

/-- First loop of `getComponentUsageGraph`: seed the graph with
`component.id ↦ component.usedIn` (the array itself, i.e. a pointer). -/
def seedGraph (comps : List ComponentIndex) : List (String × UsageRef) :=
  comps.enum.foldl (fun g p => mapSet g p.2.id (UsageRef.comp p.1)) []

/-- The mutable state of the second loop: the components array (whose `usedIn`
fields are being mutated through the graph's pointers) and the graph. -/
structure UGState where
  components : List ComponentIndex
  graph : List (String × UsageRef)
deriving DecidableEq, Repr

/-- Body of the inner loop of `getComponentUsageGraph` for one
`componentName` of a page: resolve the first component with that name, fetch
`currentUsage` through the graph, and append `page.id` if absent.  In the
`UsageRef.comp j` case the push mutates `components[j].usedIn`; the final
`usageGraph.set` re-stores the same array reference.  (The `comp j` pointer
always indexes into the components array — the out-of-range fallback below is
unreachable.) -/
def usageStep (pageId : String) (st : UGState) (componentName : String) : UGState :=
  match st.components.find? (fun c => c.name = componentName) with
  | none => st
  | some component =>
    match mapGet st.graph component.id with
    | some (UsageRef.comp j) =>
      match st.components.get? j with
      | some cj =>
        if cj.usedIn.contains pageId then st
        else ⟨st.components.set j { cj with usedIn := cj.usedIn ++ [pageId] },
          mapSet st.graph component.id (UsageRef.comp j)⟩
      | none => st
    | some (UsageRef.detached l) =>
      if l.contains pageId then st
      else ⟨st.components, mapSet st.graph component.id (UsageRef.detached (l ++ [pageId]))⟩
    | none =>
      ⟨st.components, mapSet st.graph component.id (UsageRef.detached [pageId])⟩

/-- Both loops of `getComponentUsageGraph`. -/
def runUsageGraph (idx : ProjectIndex) : UGState :=
  idx.pages.foldl (fun st page => page.components.foldl (usageStep page.id) st)
    ⟨idx.components, seedGraph idx.components⟩

/-- Dereference a graph entry after the loops. -/
def usageRefValue (comps : List ComponentIndex) : UsageRef → List String
  | UsageRef.comp j => ((comps.get? j).map (fun c => c.usedIn)).getD []
  | UsageRef.detached l => l

/-- `IndexSearchEngine.getComponentUsageGraph`: the returned `Map` contents,
paired with the engine's components array as it stands after the call (the
call mutates it through the aliased `usedIn` arrays). -/
def getComponentUsageGraph (idx : ProjectIndex) :
    List (String × List String) × List ComponentIndex :=
  let st := runUsageGraph idx
  (st.graph.map (fun p => (p.1, usageRefValue st.components p.2)), st.components)

/-! ## Visual elements (`visual-code-correlator.ts`) -/

/-- The `attributes` record captured per extracted element. -/
structure ElementAttributes where
  role : Option String
  ariaLabel : Option String
  type : Option String
  placeholder : Option String
deriving DecidableEq, Repr

/-- The `styles` record captured per extracted element. -/
structure ElementStyles where
  position : String
  display : String
  backgroundColor : String
  color : String
  fontSize : String
  fontWeight : String
  padding : String
  margin : String
  border : String
  borderRadius : String
deriving DecidableEq, Repr

/-- The `bounds` record of a visual element (values are `Math.round`ed by the
extraction script, hence integers). -/
structure ElementBounds where
  x : Int
  y : Int
  width : Int
  height : Int
deriving DecidableEq, Repr

/-- A visual element as supplied by `extractTargetElements`. -/
structure VisualElement where
  selector : String
  text : String
  bounds : ElementBounds
  tagName : String
  className : String
  id : String
  attributes : ElementAttributes
  styles : ElementStyles
deriving DecidableEq, Repr

/-- `VisualCodeCorrelation` (without the fields the caller fills in later);
`codeSnippet` is always assigned by `findComponentMatch` (possibly `""`). -/
structure Correlation where
  visualElement : VisualElement
  sourceComponent : Option ComponentIndex
  confidence : ℚ
  matchReason : String
  codeSnippet : String
  responsiveIssues : List String
  recommendations : List String
deriving DecidableEq, Repr

/-! ## Matching strategies (`VisualCodeCorrelator.findComponentMatch`) -/

/-- `VisualCodeCorrelator.buildTypeQuery`. -/
def buildTypeQuery (e : VisualElement) : SearchQuery :=
  if e.tagName = "button" ∨ e.attributes.role = some "button" then
    { emptyQuery with text := some "button", tags := some ["interactive"] }
  else if ["input", "textarea", "select"].contains e.tagName then
    { emptyQuery with text := some "input", tags := some ["interactive"] }
  else if jsIncludes e.className "card" then
    { emptyQuery with text := some "card", tags := some ["container"] }
  else if e.tagName = "nav" then
    { emptyQuery with text := some "navigation" }
  else emptyQuery

/-- `VisualCodeCorrelator.extractRelevantCodeSnippet` (the unused
`visualElement` parameter is dropped): a window from 2 lines before to 15
lines after the first line containing `return`, else the first 20 lines. -/
def extractRelevantCodeSnippet (component : ComponentIndex) : String :=
  let sourceLines := component.sourceCode.splitOn "\n"
  match sourceLines.findIdx? (fun line => jsIncludes line.trim "return") with
  | some returnIndex =>
    let start := returnIndex - 2
    let stop := min sourceLines.length (returnIndex + 15)
    String.intercalate "\n" ((sourceLines.drop start).take (stop - start))
  | none => String.intercalate "\n" (sourceLines.take 20)

/-- The `bestMatch`/`confidence`/`matchReason` accumulator of
`findComponentMatch`. -/
structure MatchState where
  bestMatch : Option ComponentIndex
  confidence : ℚ
  matchReason : String
deriving DecidableEq, Repr

/-- JavaScript string interpolation of a possibly-`undefined` value. -/
def jsShowOptString : Option String → String
  | some t => t
  | none => "undefined"

/-- Strategy 1 of `findComponentMatch`: search by the element's text content
when it is longer than 2 characters; `confidence = min(topScore/20, 0.8)`. -/
def textStrategy (idx : ProjectIndex) (e : VisualElement) : MatchState :=
  if 2 < e.text.length then
    let q : SearchQuery :=
      { emptyQuery with
          text := some e.text,
          componentType := some ComponentType.anyType }
    match searchComponents idx q with
    | [] => ⟨none, 0, ""⟩
    | top :: _ =>
      ⟨some top.component, min ((top.relevanceScore : ℚ) / 20) (8 / 10),
        "Matched by text content: \"" ++ e.text ++ "\""⟩
  else ⟨none, 0, ""⟩

/-- Strategy 2 of `findComponentMatch`: runs when there is no match yet or the
confidence is below `0.5`; overrides when the top raw score exceeds `5` and
either there is no match or it exceeds `confidence * 20`;
`confidence = min(topScore/15, 0.9)`. -/
def typeStrategy (idx : ProjectIndex) (e : VisualElement) (s : MatchState) :
    MatchState :=
  if s.bestMatch = none ∨ s.confidence < 5 / 10 then
    let typeQuery := buildTypeQuery e
    match searchComponents idx typeQuery with
    | [] => s
    | top :: _ =>
      if top.relevanceScore > 5
          ∧ (s.bestMatch = none ∨ (top.relevanceScore : ℚ) > s.confidence * 20) then
        ⟨some top.component, min ((top.relevanceScore : ℚ) / 15) (9 / 10),
          "Matched by element type and props: " ++ jsShowOptString typeQuery.text⟩
      else s
  else s

/-- One class token of strategy 3: overrides when the top raw score exceeds
`3` and either there is no match or it exceeds `confidence * 15`;
`confidence = min(topScore/12, 0.7)`. -/
def classStrategyStep (idx : ProjectIndex) (s : MatchState) (className : String) :
    MatchState :=
  let q : SearchQuery :=
    { emptyQuery with
        text := some className,
        componentType := some ComponentType.anyType }
  match searchComponents idx q with
  | [] => s
  | top :: _ =>
    if top.relevanceScore > 3
        ∧ (s.bestMatch = none ∨ (top.relevanceScore : ℚ) > s.confidence * 15) then
      ⟨some top.component, min ((top.relevanceScore : ℚ) / 12) (7 / 10),
        "Matched by CSS class: \"" ++ className ++ "\""⟩
    else s

/-- Strategy 3 of `findComponentMatch`: runs when (no match yet or confidence
below `0.6`) and the element has a non-empty class attribute; tries every
whitespace-separated class token longer than 2 characters in order. -/
def classStrategy (idx : ProjectIndex) (e : VisualElement) (s : MatchState) :
    MatchState :=
  if (s.bestMatch = none ∨ s.confidence < 6 / 10) ∧ e.className ≠ "" then
    ((e.className.splitOn " ").filter (fun c => c.length > 2)).foldl
      (classStrategyStep idx) s
  else s

/-- `VisualCodeCorrelator.findComponentMatch` (with a search engine and a
loaded index present): the three strategies in order, then the snippet and
reason selection. -/
def findComponentMatch (idx : ProjectIndex) (e : VisualElement) : Correlation :=
  let s := classStrategy idx e (typeStrategy idx e (textStrategy idx e))
  let codeSnippet :=
    match s.bestMatch with
    | some bestMatch => extractRelevantCodeSnippet bestMatch
    | none => ""
  ⟨e, s.bestMatch, s.confidence,
    (match s.bestMatch with
     | some _ => s.matchReason
     | none => "No matching component found"),
    codeSnippet, [], []⟩

/-! ## Responsive issue detection (`VisualCodeCorrelator.analyzeResponsiveIssues`) -/

/-- Model of JavaScript `parseInt` in base 10 on style strings such as
`"16px"`: optional leading whitespace and sign, then a maximal digit run;
`none` models `NaN`. -/
def parseIntJs (s : String) : Option Int :=
  let cs := s.toList.dropWhile Char.isWhitespace
  let signAndRest : Int × List Char :=
    match cs with
    | '-' :: t => (-1, t)
    | '+' :: t => (1, t)
    | t => (1, t)
  let digits := signAndRest.2.takeWhile Char.isDigit
  if digits.isEmpty then none
  else some (signAndRest.1 * (digits.foldl (fun acc c => acc * 10 + (c.toNat - 48)) 0 : Nat))

/-- `VisualCodeCorrelator.analyzeResponsiveIssues`: touch-target check, parsed
font-size check (`if (fontSize && fontSize < 14)` — `NaN` and `0` are falsy),
and the coarse equal-color contrast check (both style strings non-empty and
identical). -/
def analyzeResponsiveIssues (e : VisualElement) : List String :=
  (if e.bounds.width < 44 ∨ e.bounds.height < 44 then
    ["Touch target too small: " ++ toString e.bounds.width ++ "x"
      ++ toString e.bounds.height ++ "px (minimum 44x44px)"]
  else [])
  ++ (match parseIntJs e.styles.fontSize with
      | some fontSize =>
        if fontSize ≠ 0 ∧ fontSize < 14 then
          ["Font size too small: " ++ toString fontSize ++ "px (minimum 14px for mobile)"]
        else []
      | none => [])
  ++ (if e.styles.color ≠ "" ∧ e.styles.backgroundColor ≠ ""
        ∧ e.styles.color = e.styles.backgroundColor then
      ["Potential color contrast issue"]
    else [])

/-! ## Index persistence (`ProjectIndexer.saveIndex` / `ProjectIndexer.loadIndex`)

`saveIndex` writes `JSON.stringify(this.index, null, 2)` to
`.ui-context-index.json`; `loadIndex` reads the file and returns
`JSON.parse(indexData)` with no reviver.  The JSON *text* is modelled by the
JSON value tree it denotes (`Json`); in-memory JavaScript values, which can
additionally contain `Date` objects, are modelled by `JsVal`.
`JSON.stringify` turns a `Date` into the string produced by its `toJSON`
(i.e. `toISOString`); `JSON.parse` without a reviver is a plain injection of
the JSON tree into the value universe — it never reconstructs a `Date`. -/

/-- A JSON document (the parse of the persisted artifact). -/
inductive Json where
  | str (s : String)
  | num (n : Int)
  | bool (b : Bool)
  | null
  | arr (elems : List Json)
  | obj (fields : List (String × Json))

/-- An in-memory JavaScript value: JSON data plus `Date` objects. -/
inductive JsVal where
  | str (s : String)
  | num (n : Int)
  | bool (b : Bool)
  | null
  | date (d : JsDate)
  | arr (elems : List JsVal)
  | obj (fields : List (String × JsVal))

/-- Models `Date.prototype.toISOString` (a JavaScript builtin).  Every claim
below depends only on the fact that a `Date` serialises to *some* string, so
the builtin's calendar formatting is abstracted as an injective textual
rendering of the epoch-milliseconds value. -/
def isoString (d : JsDate) : String := toString d.millis

/-- `JSON.stringify` (as the JSON tree of the produced text): identity on JSON
data, `Date`s become their ISO strings. -/
def stringify : JsVal → Json
  | .str s => .str s
  | .num n => .num n
  | .bool b => .bool b
  | .null => .null
  | .date d => .str (isoString d)
  | .arr l => .arr (l.attach.map (fun x => stringify x.1))
  | .obj l => .obj (l.attach.map (fun p => (p.1.1, stringify p.1.2)))
decreasing_by
  · have := List.sizeOf_lt_of_mem x.2
    simp only [JsVal.arr.sizeOf_spec]
    omega
  · have h1 := List.sizeOf_lt_of_mem p.2
    have h2 : sizeOf p.1.2 < sizeOf p.1 := by
      obtain ⟨a, b⟩ := p.1
      simp only [Prod.mk.sizeOf_spec]
      omega
    simp only [JsVal.obj.sizeOf_spec]
    omega

/-- `JSON.parse` with no reviver: the plain injection of the JSON tree into
the JavaScript value universe. -/
def parseVal : Json → JsVal
  | .str s => .str s
  | .num n => .num n
  | .bool b => .bool b
  | .null => .null
  | .arr l => .arr (l.attach.map (fun x => parseVal x.1))
  | .obj l => .obj (l.attach.map (fun p => (p.1.1, parseVal p.1.2)))
decreasing_by
  · have := List.sizeOf_lt_of_mem x.2
    simp only [Json.arr.sizeOf_spec]
    omega
  · have h1 := List.sizeOf_lt_of_mem p.2
    have h2 : sizeOf p.1.2 < sizeOf p.1 := by
      obtain ⟨a, b⟩ := p.1
      simp only [Prod.mk.sizeOf_spec]
      omega
    simp only [Json.obj.sizeOf_spec]
    omega

/-- The value transformation effected by a save/load cycle: every `Date` node
replaced by its ISO-string serialisation, everything else untouched. -/
def mapDates : JsVal → JsVal
  | .str s => .str s
  | .num n => .num n
  | .bool b => .bool b
  | .null => .null
  | .date d => .str (isoString d)
  | .arr l => .arr (l.attach.map (fun x => mapDates x.1))
  | .obj l => .obj (l.attach.map (fun p => (p.1.1, mapDates p.1.2)))
decreasing_by
  · have := List.sizeOf_lt_of_mem x.2
    simp only [JsVal.arr.sizeOf_spec]
    omega
  · have h1 := List.sizeOf_lt_of_mem p.2
    have h2 : sizeOf p.1.2 < sizeOf p.1 := by
      obtain ⟨a, b⟩ := p.1
      simp only [Prod.mk.sizeOf_spec]
      omega
    simp only [JsVal.obj.sizeOf_spec]
    omega

/-- Property access `v[k]` on a JavaScript object value. -/
def getField (v : JsVal) (k : String) : Option JsVal :=
  match v with
  | .obj l => mapGet l k
  | _ => none

/-- An optional (`undefined`-able) object property: `JSON.stringify` omits
absent properties, and the indexer builds the objects without them. -/
def optField (name : String) : Option JsVal → List (String × JsVal)
  | some v => [(name, v)]
  | none => []

/-- The in-memory value of a `screenshots` record. -/
def ScreenshotSet.toVal (s : ScreenshotSet) : JsVal :=
  JsVal.obj (optField "desktop" (s.desktop.map JsVal.str)
    ++ optField "tablet" (s.tablet.map JsVal.str)
    ++ optField "mobile" (s.mobile.map JsVal.str))

/-- The in-memory value of a `BoundingBox`. -/
def BoundingBox.toVal (b : BoundingBox) : JsVal :=
  JsVal.obj [("x", JsVal.num b.x), ("y", JsVal.num b.y),
    ("width", JsVal.num b.width), ("height", JsVal.num b.height)]

/-- The in-memory value of a `bounds` record. -/
def BoundsSet.toVal (b : BoundsSet) : JsVal :=
  JsVal.obj (optField "desktop" (b.desktop.map BoundingBox.toVal)
    ++ optField "tablet" (b.tablet.map BoundingBox.toVal)
    ++ optField "mobile" (b.mobile.map BoundingBox.toVal))

/-- The in-memory value of a `PropDefinition`. -/
def PropDefinition.toVal (p : PropDefinition) : JsVal :=
  JsVal.obj ([("name", JsVal.str p.name), ("type", JsVal.str p.type),
    ("required", JsVal.bool p.required)]
    ++ optField "defaultValue" (p.defaultValue.map JsVal.str)
    ++ optField "description" (p.description.map JsVal.str))

/-- The in-memory value of a `styles` record. -/
def StyleRecord.toVal (s : StyleRecord) : JsVal :=
  JsVal.obj [("css", JsVal.str s.css),
    ("computedStyles", JsVal.obj (s.computedStyles.map (fun p => (p.1, JsVal.str p.2))))]

/-- The in-memory value of a `ComponentIndex`, with the property order of the
object literal in `ProjectIndexer.analyzeComponent`. -/
def ComponentIndex.toVal (c : ComponentIndex) : JsVal :=
  JsVal.obj [("id", JsVal.str c.id), ("name", JsVal.str c.name),
    ("filePath", JsVal.str c.filePath), ("sourceCode", JsVal.str c.sourceCode),
    ("screenshots", c.screenshots.toVal), ("bounds", c.bounds.toVal),
    ("props", JsVal.arr (c.props.map PropDefinition.toVal)),
    ("imports", JsVal.arr (c.imports.map JsVal.str)),
    ("dependencies", JsVal.arr (c.dependencies.map JsVal.str)),
    ("styles", c.styles.toVal),
    ("usedIn", JsVal.arr (c.usedIn.map JsVal.str)),
    ("children", JsVal.arr (c.children.map JsVal.str)),
    ("description", JsVal.str c.description),
    ("tags", JsVal.arr (c.tags.map JsVal.str)),
    ("lastModified", JsVal.date c.lastModified)]

/-- The serialised name of the framework enum. -/
def Framework.toVal : Framework → JsVal
  | Framework.react => JsVal.str "react"
  | Framework.vue => JsVal.str "vue"
  | Framework.angular => JsVal.str "angular"
  | Framework.unknownFw => JsVal.str "unknown"

/-- The in-memory value of the index `metadata` record. -/
def IndexMetadata.toVal (m : IndexMetadata) : JsVal :=
  JsVal.obj [("projectPath", JsVal.str m.projectPath),
    ("framework", m.framework.toVal),
    ("lastIndexed", JsVal.date m.lastIndexed),
    ("componentsCount", JsVal.num m.componentsCount),
    ("pagesCount", JsVal.num m.pagesCount)]

/-- The in-memory value of a `PageIndex`, with the property order of the
object literal in `ProjectIndexer.analyzePage`. -/
def PageIndex.toVal (p : PageIndex) : JsVal :=
  JsVal.obj [("id", JsVal.str p.id), ("name", JsVal.str p.name),
    ("route", JsVal.str p.route), ("filePath", JsVal.str p.filePath),
    ("components", JsVal.arr (p.components.map JsVal.str)),
    ("screenshots", p.screenshots.toVal)]

/-- The in-memory value of a `ProjectIndex` (the indexer never populates the
optional `embeddings` property, so it is absent). -/
def ProjectIndex.toVal (idx : ProjectIndex) : JsVal :=
  JsVal.obj [("metadata", idx.metadata.toVal),
    ("components", JsVal.arr (idx.components.map ComponentIndex.toVal)),
    ("pages", JsVal.arr (idx.pages.map PageIndex.toVal))]

/-- `ProjectIndexer.saveIndex`: the JSON document written to the persisted
artifact at `.ui-context-index.json` (`JSON.stringify(this.index, null, 2)`;
the indentation argument does not change the denoted JSON value). -/
def saveIndex (idx : ProjectIndex) : Json :=
  stringify idx.toVal

/-- `ProjectIndexer.loadIndex` on a present, parsable artifact:
`JSON.parse(indexData)` with no reviver. -/
def loadIndex (j : Json) : JsVal :=
  parseVal j

/-! ## Concrete values used by the witness and counterexample theorems -/

/-- A component with every field trivial, for building concrete examples. -/
def baseComponent : ComponentIndex :=
  { id := "c1", name := "", filePath := "", sourceCode := "",
    screenshots := ⟨none, none, none⟩, bounds := ⟨none, none, none⟩,
    props := [], imports := [], dependencies := [],
    styles := ⟨"", []⟩, usedIn := [], children := [],
    description := "", tags := [], lastModified := ⟨0⟩ }

/-- Metadata for concrete example indexes. -/
def baseMetadata : IndexMetadata :=
  { projectPath := "/proj", framework := Framework.react,
    lastIndexed := ⟨1700000000000⟩, componentsCount := 1, pagesCount := 0 }

/-- A one-component project index. -/
def singletonIndex (c : ComponentIndex) : ProjectIndex :=
  ⟨baseMetadata, [c], []⟩

/-- A concrete searchable component: name matches the text query `"btn"`. -/
def btnComponent : ComponentIndex :=
  { baseComponent with id := "src_Btn", name := "Btn" }

/-- The text query `{text: "btn"}`. -/
def btnQuery : SearchQuery :=
  { emptyQuery with text := some "btn" }

/-- A query extended with one extra requested tag (an absent `tags` field
becomes a one-element list). -/
def addTag (q : SearchQuery) (t : String) : SearchQuery :=
  { q with tags := some (q.tags.getD [] ++ [t]) }

/-- The text query `{text: "button"}` of the C2 scenario. -/
def buttonQuery : SearchQuery :=
  { emptyQuery with text := some "button" }

/-- The C2 scenario component: named `SubmitButton`, default description
`"SubmitButton component"`, `onClick` in the source (hence the tag
`interactive`). -/
def submitButtonComponent : ComponentIndex :=
  { baseComponent with
      id := "src_SubmitButton",
      name := "SubmitButton",
      sourceCode := "const SubmitButton = () => <button onClick={submit} />",
      description := "SubmitButton component",
      tags := ["interactive", "styled"] }

/-- A concrete 30×30 visual element with no font-size style and no
colour/background pair. -/
def smallButtonElement : VisualElement :=
  { selector := "button.small", text := "Go", bounds := ⟨0, 0, 30, 30⟩,
    tagName := "button", className := "small", id := "",
    attributes := ⟨none, none, none, none⟩,
    styles := ⟨"static", "inline-block", "", "", "", "", "", "", "", ""⟩ }

/-- A component whose `usedIn` list contains a duplicated context. -/
def dupUsageComponent : ComponentIndex :=
  { baseComponent with id := "src_A", name := "A", usedIn := ["p", "p"] }

/-- A component used once in the same context. -/
def oneUsageComponent : ComponentIndex :=
  { baseComponent with id := "src_B", name := "B", usedIn := ["p"] }

/-- The correctness envelope of a strategy accumulator state: confidence in
`[0, 0.9]`, and zero exactly when no strategy has produced a match. -/
def MatchStateOK (s : MatchState) : Prop :=
  0 ≤ s.confidence ∧ s.confidence ≤ 9 / 10 ∧ (s.confidence = 0 ↔ s.bestMatch = none)

/-- A component scoring exactly 16 for the text query `"xyz"`:
name `+10`, two matching props `+3` each. -/
def xyzComponent : ComponentIndex :=
  { baseComponent with
      id := "src_Axyz", name := "Axyz", sourceCode := "b", description := "a",
      props := [⟨"xyz1", "t", true, none, none⟩, ⟨"p", "xyzT", true, none, none⟩] }

/-- The single search result for `xyzComponent` under the text query `"xyz"`. -/
def xyzTopResult : SearchResult :=
  ⟨xyzComponent, 16, [⟨"name", "Axyz", 1, 4⟩]⟩

/-- A visual element whose text is `"xyz"` (longer than 2 characters). -/
def xyzElement : VisualElement :=
  { selector := "div.x", text := "xyz", bounds := ⟨0, 0, 100, 100⟩,
    tagName := "div", className := "", id := "",
    attributes := ⟨none, none, none, none⟩,
    styles := ⟨"static", "block", "", "", "", "", "", "", "", ""⟩ }

/-- The usage list the claim describes for one component: the component's own
`usedIn` contexts, then the id of every page whose component list references
the component's name, each appended at most once (idempotent union, in page
order). -/
def specUsage (idx : ProjectIndex) (c : ComponentIndex) : List String :=
  idx.pages.foldl
    (fun acc page =>
      if page.components.contains c.name && !(acc.contains page.id)
      then acc ++ [page.id] else acc)
    c.usedIn

/-- Verification-side view of the mutable components array: the original
components with each `usedIn` field overridden by `u` at its index. -/
def withUsage (comps : List ComponentIndex) (u : Nat → List String) :
    List ComponentIndex :=
  comps.enum.map (fun p => { p.2 with usedIn := u p.1 })

/-- The initial usage assignment: each component's own `usedIn`. -/
def baseUsage (comps : List ComponentIndex) : Nat → List String :=
  fun i => ((comps[i]?).map (fun c => c.usedIn)).getD []

/-- The effect of one `usageStep` on the usage assignment: the first
component whose name matches gets the page id appended unless present. -/
def stepFn (comps : List ComponentIndex) (pageId cname : String)
    (u : Nat → List String) : Nat → List String :=
  match comps.enum.find? (fun p => p.2.name = cname) with
  | none => u
  | some p => fun k =>
    if k = p.1 then (if (u p.1).contains pageId then u p.1 else u p.1 ++ [pageId])
    else u k

/-- A one-component, one-page index whose page references the component. -/
def graphComponent : ComponentIndex :=
  { baseComponent with id := "src_C", name := "C" }

/-- The page of `graphIndex`, referencing component `C`. -/
def graphPage : PageIndex :=
  { id := "src_pages_Home", name := "Home", route := "/",
    filePath := "src/pages/Home.tsx", components := ["C"],
    screenshots := ⟨none, none, none⟩ }

/-- The concrete index showing that `getComponentUsageGraph` mutates the
loaded index. -/
def graphIndex : ProjectIndex :=
  ⟨baseMetadata, [graphComponent], [graphPage]⟩

/-! ## Theorems

### Stable sorting of search results -/

/-- The descending comparison used by the `searchComponents` sort. -/
def scoreGE (a b : SearchResult) : Prop :=
  b.relevanceScore ≤ a.relevanceScore

theorem mem_insertDesc {a r : SearchResult} {l : List SearchResult} :
    a ∈ insertDesc r l ↔ a = r ∨ a ∈ l := by
  induction l with
  | nil => simp [insertDesc]
  | cons x xs ih =>
    simp only [insertDesc]
    split
    · simp [List.mem_cons]
    · simp only [List.mem_cons, ih]
      tauto

theorem mem_sortByScoreDesc {a : SearchResult} {l : List SearchResult} :
    a ∈ sortByScoreDesc l ↔ a ∈ l := by
  induction l with
  | nil => simp [sortByScoreDesc]
  | cons x xs ih =>
    simp only [sortByScoreDesc, mem_insertDesc, List.mem_cons, ih]

theorem sorted_insertDesc {r : SearchResult} {l : List SearchResult}
    (h : List.Pairwise scoreGE l) : List.Pairwise scoreGE (insertDesc r l) := by
  induction l with
  | nil => simp [insertDesc, List.pairwise_singleton]
  | cons x xs ih =>
    rcases List.pairwise_cons.mp h with ⟨h1, h2⟩
    simp only [insertDesc]
    split
    · refine List.pairwise_cons.mpr ⟨?_, h⟩
      intro y hy
      rcases List.mem_cons.mp hy with rfl | hy
      · assumption
      · exact le_trans (h1 y hy) (by assumption)
    · refine List.pairwise_cons.mpr ⟨?_, ih h2⟩
      intro y hy
      rcases mem_insertDesc.mp hy with rfl | hy
      · have : ¬ x.relevanceScore ≤ y.relevanceScore := by assumption
        exact le_of_lt (lt_of_not_le this)
      · exact h1 y hy

theorem sorted_sortByScoreDesc (l : List SearchResult) :
    List.Pairwise scoreGE (sortByScoreDesc l) := by
  induction l with
  | nil => simp [sortByScoreDesc]
  | cons x xs ih => exact sorted_insertDesc ih

theorem filter_insertDesc (r : SearchResult) (l : List SearchResult) (s : Int) :
    (insertDesc r l).filter (fun x => x.relevanceScore == s)
      = if r.relevanceScore = s
        then r :: l.filter (fun x => x.relevanceScore == s)
        else l.filter (fun x => x.relevanceScore == s) := by
  induction l with
  | nil =>
    by_cases h : r.relevanceScore = s <;>
      simp [insertDesc, List.filter_cons, beq_iff_eq, h]
  | cons x xs ih =>
    simp only [insertDesc]
    split
    · by_cases h : r.relevanceScore = s <;> simp [List.filter_cons, beq_iff_eq, h]
    · have hx : ¬ x.relevanceScore ≤ r.relevanceScore := by assumption
      by_cases h : r.relevanceScore = s
      · have hxs : (x.relevanceScore == s) = false := by
          simp only [beq_eq_false_iff_ne, ne_eq]
          omega
        simp [List.filter_cons, hxs, ih, h]
      · simp only [List.filter_cons, ih, if_neg h]

theorem filter_sortByScoreDesc (l : List SearchResult) (s : Int) :
    (sortByScoreDesc l).filter (fun x => x.relevanceScore == s)
      = l.filter (fun x => x.relevanceScore == s) := by
  induction l with
  | nil => rfl
  | cons x xs ih =>
    simp only [sortByScoreDesc, filter_insertDesc, ih, List.filter_cons]
    by_cases h : x.relevanceScore = s
    · simp [h]
    · have : (x.relevanceScore == s) = false := by
        simp only [beq_eq_false_iff_ne, ne_eq]
        exact h
      simp [h, this]

/-- **C4.** For every query and every index, `searchComponents` returns its
results sorted in descending order of `relevanceScore`, and any two results
with equal `relevanceScore` appear in the same relative order as their
components appear in the index's components list: the score-`s` slice of the
output equals the score-`s` slice of the pre-sort result list, which is built
by a single pass over `index.components` in index order (stable sort). -/
theorem c4_search_sorted_and_stable (idx : ProjectIndex) (q : SearchQuery) :
    List.Pairwise scoreGE (searchComponents idx q)
      ∧ ∀ s : Int,
        (searchComponents idx q).filter (fun r => r.relevanceScore == s)
          = (searchResultsUnsorted idx q).filter (fun r => r.relevanceScore == s) := by
  exact ⟨sorted_sortByScoreDesc _, fun s => filter_sortByScoreDesc _ s⟩

/-! ### Positivity of returned scores -/

theorem mem_searchResultsUnsorted {idx : ProjectIndex} {q : SearchQuery}
    {r : SearchResult} (h : r ∈ searchResultsUnsorted idx q) :
    0 < r.relevanceScore := by
  rcases List.mem_filterMap.mp h with ⟨c, _, hc⟩
  by_cases hpos : calculateRelevanceScore c q > 0
  · simp only [searchResultsUnsorted, if_pos hpos] at hc
    cases hc
    exact hpos
  · simp only [searchResultsUnsorted, if_neg hpos] at hc
    cases hc

/-- **C10.** Every result returned by `searchComponents` has a strictly
positive `relevanceScore` (zero-score components are omitted entirely), and
the all-absent query returns the empty result list. -/
theorem c10_results_strictly_positive (idx : ProjectIndex) (q : SearchQuery) :
    (∀ r ∈ searchComponents idx q, 0 < r.relevanceScore)
      ∧ searchComponents idx emptyQuery = [] := by
  constructor
  · intro r hr
    exact mem_searchResultsUnsorted (mem_sortByScoreDesc.mp hr)
  · have hz : ∀ c : ComponentIndex, calculateRelevanceScore c emptyQuery = 0 := by
      intro c
      rfl
    have : searchResultsUnsorted idx emptyQuery = [] := by
      simp only [searchResultsUnsorted]
      rw [List.filterMap_eq_nil_iff]
      intro c _
      simp [hz c]
    simp [searchComponents, this, sortByScoreDesc]

/-- Witness for C10 at a concrete index and query: the returned head result
exists and its score is positive. -/
theorem c10_witness :
    0 < ((searchComponents (singletonIndex btnComponent) btnQuery).head
      (by decide)).relevanceScore :=
  (c10_results_strictly_positive (singletonIndex btnComponent) btnQuery).1 _
    (List.head_mem _)

/-! ### C7: tag monotonicity -/

theorem length_filter_mono {α : Type} {p q : α → Bool} (l : List α)
    (h : ∀ a, p a = true → q a = true) :
    (l.filter p).length ≤ (l.filter q).length := by
  induction l with
  | nil => simp
  | cons a as ih =>
    simp only [List.filter_cons]
    by_cases hp : p a = true
    · rw [if_pos hp, if_pos (h a hp)]
      simpa using ih
    · rw [if_neg hp]
      split
      · exact le_trans ih (by simp)
      · exact ih

theorem tagScore_addTag_le (c : ComponentIndex) (q : SearchQuery) (t : String) :
    tagScore c q ≤ tagScore c (addTag q t) := by
  have hnonneg : ∀ l : List String,
      (0 : Int) ≤ 4 * ((c.tags.filter (fun tag => l.contains tag)).length : Int) := by
    intro l
    positivity
  cases hq : q.tags with
  | none =>
    have hold : tagScore c q = 0 := by simp [tagScore, hq]
    have hnew : tagScore c (addTag q t)
        = 4 * ((c.tags.filter (fun tag => ([] ++ [t] : List String).contains tag)).length : Int) := by
      simp [tagScore, addTag, hq]
    rw [hold, hnew]
    exact hnonneg _
  | some qts =>
    have hnew : tagScore c (addTag q t)
        = 4 * ((c.tags.filter (fun tag => (qts ++ [t]).contains tag)).length : Int) := by
      have hlen : (qts ++ [t]).length > 0 := by simp
      simp [tagScore, addTag, hq, hlen]
    rw [hnew]
    by_cases hl : qts.length > 0
    · have hold : tagScore c q
          = 4 * ((c.tags.filter (fun tag => qts.contains tag)).length : Int) := by
        simp [tagScore, hq, hl]
      rw [hold]
      have hmono : (c.tags.filter (fun tag => qts.contains tag)).length
          ≤ (c.tags.filter (fun tag => (qts ++ [t]).contains tag)).length := by
        apply length_filter_mono
        intro a ha
        have : a ∈ qts := by simpa using ha
        simp [List.mem_append, this]
      omega
    · have hold : tagScore c q = 0 := by simp [tagScore, hq, hl]
      rw [hold]
      exact hnonneg _

/-- **C7.** For every component, query, and tag `t` possessed by the
component, the relevance score for the query extended with `t` in
`query.tags` is at least the score for the original query. -/
theorem c7_addTag_monotone (c : ComponentIndex) (q : SearchQuery) (t : String)
    (h : t ∈ c.tags) :
    calculateRelevanceScore c q ≤ calculateRelevanceScore c (addTag q t) := by
  have h1 : textScore c (addTag q t) = textScore c q := rfl
  have h2 : typeScore c (addTag q t) = typeScore c q := rfl
  have h3 : propsScore c (addTag q t) = propsScore c q := rfl
  have h4 : sideEffectsScore c (addTag q t) = sideEffectsScore c q := rfl
  have h5 : usedInScore c (addTag q t) = usedInScore c q := rfl
  have h6 := tagScore_addTag_le c q t
  simp only [calculateRelevanceScore, h1, h2, h3, h4, h5]
  omega

/-- Witness for C7 at a concrete component, query and possessed tag. -/
theorem c7_witness :
    "interactive" ∈ submitButtonComponent.tags
      ∧ calculateRelevanceScore submitButtonComponent buttonQuery
          ≤ calculateRelevanceScore submitButtonComponent (addTag buttonQuery "interactive") :=
  ⟨by decide, c7_addTag_monotone submitButtonComponent buttonQuery "interactive" (by decide)⟩

/-! ### C2: the SubmitButton scenario -/

/-- **C2 (counterexample).** For the SubmitButton scenario component, the
query `{text:"button"}` does *not* produce `relevanceScore == 10` with a
single match on `name`: the description `"SubmitButton component"` (and here
also the source text) lowercases to a string containing `"button"`, so the
score is `17` and there are three match records. -/
theorem c2_counterexample :
    ¬ (calculateRelevanceScore submitButtonComponent buttonQuery = 10
        ∧ (findMatches submitButtonComponent buttonQuery).length = 1) := by
  decide

/-- **C2 (amended).** For a component named `SubmitButton` with description
`"SubmitButton component"` and no props, the query `{text:"button"}` yields
`relevanceScore = 15 + 2·[source matches]` — the name contributes `10` and
the description, whose lowercase form contains `"button"`, contributes `5`;
the match list has a record for `name`, one for `description`, and one for
`sourceCode` exactly when the lowercased source text contains `"button"`. -/
theorem c2_amended (c : ComponentIndex)
    (hname : c.name = "SubmitButton")
    (hdesc : c.description = "SubmitButton component")
    (hprops : c.props = []) :
    calculateRelevanceScore c buttonQuery
        = 15 + (if jsIncludes (jsToLower c.sourceCode) "button" then 2 else 0)
      ∧ (findMatches c buttonQuery).map (fun m => m.field)
        = ["name", "description"]
            ++ (if jsIncludes (jsToLower c.sourceCode) "button"
                then ["sourceCode"] else []) := by
  have hb : jsToLower "button" = "button" := by decide
  have hn : jsIncludes (jsToLower "SubmitButton") "button" = true := by decide
  have hd : jsIncludes (jsToLower "SubmitButton component") "button" = true := by decide
  have hin : jsIndexOf (jsToLower "SubmitButton") "button" = some 6 := by decide
  have hid : jsIndexOf (jsToLower "SubmitButton component") "button" = some 6 := by decide
  constructor
  · have htext : textScore c buttonQuery
        = 15 + (if jsIncludes (jsToLower c.sourceCode) "button" then 2 else 0) := by
      simp only [textScore, buttonQuery, hname, hdesc, hprops, hb]
      rw [if_neg (show ¬ ("button" = "") from by decide)]
      simp [hn, hd]
    have hother : tagScore c buttonQuery = 0 ∧ typeScore c buttonQuery = 0
        ∧ propsScore c buttonQuery = 0 ∧ sideEffectsScore c buttonQuery = 0
        ∧ usedInScore c buttonQuery = 0 := by
      refine ⟨rfl, rfl, rfl, rfl, rfl⟩
    simp only [calculateRelevanceScore, htext, hother.1, hother.2.1,
      hother.2.2.1, hother.2.2.2.1, hother.2.2.2.2]
    split <;> norm_num
  · simp only [findMatches, buttonQuery, hname, hdesc, hb]
    rw [if_neg (show ¬ ("button" = "") from by decide)]
    simp only [fieldMatch, hin, hid]
    by_cases hsrc : jsIncludes (jsToLower c.sourceCode) "button" = true
    · rcases Option.isSome_iff_exists.mp hsrc with ⟨i, hi⟩
      rw [hi]
      simp [hsrc]
    · have hnone : jsIndexOf (jsToLower c.sourceCode) "button" = none := by
        rcases hopt : jsIndexOf (jsToLower c.sourceCode) "button" with _ | i
        · rfl
        · exact absurd (by simp [jsIncludes, hopt]) hsrc
      rw [hnone]
      simp [hsrc]

/-- Witness for C2 (amended) at the concrete scenario component. -/
theorem c2_witness :
    submitButtonComponent.name = "SubmitButton"
      ∧ submitButtonComponent.description = "SubmitButton component"
      ∧ submitButtonComponent.props = []
      ∧ (calculateRelevanceScore submitButtonComponent buttonQuery
            = 15 + (if jsIncludes (jsToLower submitButtonComponent.sourceCode) "button"
                then 2 else 0)
          ∧ (findMatches submitButtonComponent buttonQuery).map (fun m => m.field)
            = ["name", "description"]
                ++ (if jsIncludes (jsToLower submitButtonComponent.sourceCode) "button"
                    then ["sourceCode"] else [])) :=
  ⟨rfl, rfl, rfl, c2_amended submitButtonComponent rfl rfl rfl⟩

/-! ### C9: the 30×30 touch-target scenario -/

/-- **C9.** For every visual element whose bounds are 30×30, whose styles
carry no font-size, and which has no (non-empty) equal colour/background
pair, issue detection produces exactly the single string
`"Touch target too small: 30x30px (minimum 44x44px)"`. -/
theorem c9_touch_target_30 (e : VisualElement)
    (hw : e.bounds.width = 30) (hh : e.bounds.height = 30)
    (hf : e.styles.fontSize = "")
    (hc : ¬ (e.styles.color ≠ "" ∧ e.styles.backgroundColor ≠ ""
        ∧ e.styles.color = e.styles.backgroundColor)) :
    analyzeResponsiveIssues e
      = ["Touch target too small: 30x30px (minimum 44x44px)"] := by
  have hp : parseIntJs "" = none := by decide
  simp only [analyzeResponsiveIssues, hw, hh, hf, hp, if_neg hc]
  rw [if_pos (by norm_num)]
  simp
  decide

/-- Witness for C9 at the concrete 30×30 element. -/
theorem c9_witness :
    smallButtonElement.bounds.width = 30
      ∧ smallButtonElement.bounds.height = 30
      ∧ smallButtonElement.styles.fontSize = ""
      ∧ analyzeResponsiveIssues smallButtonElement
          = ["Touch target too small: 30x30px (minimum 44x44px)"] :=
  ⟨rfl, rfl, rfl, c9_touch_target_30 smallButtonElement rfl rfl rfl (by decide)⟩

/-! ### The dynamic-programming matrix: defining equations and bound -/

theorem levEntry_zero_left (s1 s2 : List Char) (j : Nat) :
    levEntry s1 s2 0 j = j := rfl

theorem levEntry_succ_zero (s1 s2 : List Char) (i : Nat) :
    levEntry s1 s2 (i + 1) 0 = i + 1 := rfl

theorem levEntry_succ_succ (s1 s2 : List Char) (i j : Nat) :
    levEntry s1 s2 (i + 1) (j + 1)
      = if s2[i]? = s1[j]? then levEntry s1 s2 i j
        else
          min (levEntry s1 s2 i j + 1)
            (min (levEntry s1 s2 (i + 1) j + 1) (levEntry s1 s2 i (j + 1) + 1)) := rfl

/-- Every matrix cell is bounded by `max i j` (an edit distance between a
`j`-prefix and an `i`-prefix never exceeds the longer prefix length). -/
theorem levEntry_le_max (s1 s2 : List Char) : ∀ i j, levEntry s1 s2 i j ≤ max i j := by
  intro i
  induction i with
  | zero =>
    intro j
    simp [levEntry_zero_left]
  | succ i ih =>
    intro j
    cases j with
    | zero => simp [levEntry_succ_zero]
    | succ j =>
      rw [levEntry_succ_succ]
      split
      · exact le_trans (ih j) (by omega)
      · have h1 := ih j
        have h2 : min (levEntry s1 s2 i j + 1)
            (min (levEntry s1 s2 (i + 1) j + 1) (levEntry s1 s2 i (j + 1) + 1))
            ≤ levEntry s1 s2 i j + 1 := min_le_left _ _
        omega

/-- `calculateStringSimilarity` always lands in `[0, 1]`. -/
theorem calculateStringSimilarity_mem (a b : String) :
    0 ≤ calculateStringSimilarity a b ∧ calculateStringSimilarity a b ≤ 1 := by
  have key : ∀ longer shorter : String, shorter.length ≤ longer.length →
      0 ≤ (if longer.length = 0 then (1 : ℚ)
          else ((longer.length : ℚ) - (levenshteinDistance longer shorter : ℚ))
            / (longer.length : ℚ))
        ∧ (if longer.length = 0 then (1 : ℚ)
          else ((longer.length : ℚ) - (levenshteinDistance longer shorter : ℚ))
            / (longer.length : ℚ)) ≤ 1 := by
    intro longer shorter hlen
    by_cases h0 : longer.length = 0
    · simp [h0]
    · have hd : levenshteinDistance longer shorter ≤ longer.length := by
        have := levEntry_le_max longer.toList shorter.toList
          shorter.toList.length longer.toList.length
        have hs : shorter.toList.length = shorter.length := rfl
        have hl : longer.toList.length = longer.length := rfl
        simp only [levenshteinDistance]
        omega
      have hpos : (0 : ℚ) < (longer.length : ℚ) := by
        have : 0 < longer.length := Nat.pos_of_ne_zero h0
        exact_mod_cast this
      rw [if_neg h0]
      constructor
      · apply div_nonneg _ (le_of_lt hpos)
        have : ((levenshteinDistance longer shorter : ℚ)) ≤ (longer.length : ℚ) := by
          exact_mod_cast hd
        linarith
      · rw [div_le_one hpos]
        have : (0 : ℚ) ≤ (levenshteinDistance longer shorter : ℚ) := by positivity
        linarith
  unfold calculateStringSimilarity
  by_cases hgt : a.length > b.length
  · simp only [if_pos hgt]
    exact key a b (by omega)
  · simp only [if_neg hgt]
    exact key b a (by omega)

/-! ### C8: similarity scores and the unit interval -/

theorem calculateSemanticSimilarity_mem (A B : ComponentIndex) :
    0 ≤ calculateSemanticSimilarity A B ∧ calculateSemanticSimilarity A B ≤ 1 := by
  have hname := calculateStringSimilarity_mem A.name B.name
  unfold calculateSemanticSimilarity
  constructor
  · apply le_min (by norm_num)
    have t1 : (0 : ℚ) ≤ ((A.tags.filter (fun tag => B.tags.contains tag)).length : ℚ) * (2 / 10) := by
      positivity
    have t2 : (0 : ℚ) ≤ (((A.props.map (fun p => p.type)).filter
        (fun ty => B.props.any (fun p => p.type = ty))).length : ℚ) * (15 / 100) := by
      positivity
    have t3 : (0 : ℚ) ≤ ((A.imports.filter (fun imp => B.imports.contains imp)).length : ℚ) * (1 / 10) := by
      positivity
    have t4 : (0 : ℚ) ≤ calculateStringSimilarity A.name B.name * (3 / 10) := by
      have := hname.1
      linarith
    linarith
  · exact min_le_left _ _

theorem calculateUsageSimilarity_mem (A B : ComponentIndex) (h : A.usedIn.Nodup) :
    0 ≤ calculateUsageSimilarity A B ∧ calculateUsageSimilarity A B ≤ 1 := by
  unfold calculateUsageSimilarity
  by_cases h0 : ((A.usedIn ++ B.usedIn).dedup).length = 0
  · simp [h0]
  · rw [if_neg h0]
    have hcard : (A.usedIn.filter (fun context => B.usedIn.contains context)).length
        ≤ ((A.usedIn ++ B.usedIn).dedup).length := by
      have hnd : (A.usedIn.filter (fun context => B.usedIn.contains context)).Nodup :=
        h.filter _
      have hsub : (A.usedIn.filter (fun context => B.usedIn.contains context)).toFinset
          ⊆ (A.usedIn ++ B.usedIn).toFinset := by
        intro x hx
        rw [List.mem_toFinset] at hx ⊢
        exact List.mem_append_left _ (List.mem_of_mem_filter hx)
      calc (A.usedIn.filter (fun context => B.usedIn.contains context)).length
          = (A.usedIn.filter (fun context => B.usedIn.contains context)).toFinset.card :=
            (List.toFinset_card_of_nodup hnd).symm
        _ ≤ (A.usedIn ++ B.usedIn).toFinset.card := Finset.card_le_card hsub
        _ = ((A.usedIn ++ B.usedIn).dedup).length := List.card_toFinset _
    have hpos : (0 : ℚ) < (((A.usedIn ++ B.usedIn).dedup).length : ℚ) := by
      have : 0 < ((A.usedIn ++ B.usedIn).dedup).length := Nat.pos_of_ne_zero h0
      exact_mod_cast this
    constructor
    · positivity
    · rw [div_le_one hpos]
      exact_mod_cast hcard

theorem calculateVisualSimilarity_mem (A B : ComponentIndex) :
    0 ≤ calculateVisualSimilarity A B ∧ calculateVisualSimilarity A B ≤ 1 := by
  unfold calculateVisualSimilarity
  by_cases h0 : (((A.styles.computedStyles.map (fun p => p.1))
      ++ (B.styles.computedStyles.map (fun p => p.1))).dedup).length > 0
  · rw [if_pos h0]
    have hpos : (0 : ℚ) < ((((A.styles.computedStyles.map (fun p => p.1))
        ++ (B.styles.computedStyles.map (fun p => p.1))).dedup).length : ℚ) := by
      exact_mod_cast h0
    constructor
    · positivity
    · rw [div_le_one hpos]
      exact_mod_cast List.length_filter_le _ _
  · rw [if_neg h0]
    norm_num

/-- **C8 (amended).** For every pair of components and every mode, the
similarity score lies in `[0, 1]` — *provided* the first component's `usedIn`
list has no duplicate entries (always true for indexer-produced components;
the semantic and visual modes need no hypothesis).  Without that hypothesis
the usage mode can exceed `1`, because the numerator counts
`comp1.usedIn` with multiplicity while the denominator is the size of the
de-duplicated union (see `c8_counterexample`). -/
theorem c8_amended (A B : ComponentIndex) (mode : SimilarityType)
    (h : A.usedIn.Nodup) :
    0 ≤ calculateSimilarityScore A B mode ∧ calculateSimilarityScore A B mode ≤ 1 := by
  cases mode with
  | semantic => exact calculateSemanticSimilarity_mem A B
  | usage => exact calculateUsageSimilarity_mem A B h
  | visual => exact calculateVisualSimilarity_mem A B

/-- **C8 (counterexample).** The claim fails as stated: for a component whose
`usedIn` list repeats a context, usage similarity is `2 ∉ [0,1]` — the
numerator counts `["p","p"]` with multiplicity (2) while the de-duplicated
union has size 1. -/
theorem c8_counterexample :
    ¬ (0 ≤ calculateSimilarityScore dupUsageComponent oneUsageComponent
          SimilarityType.usage
        ∧ calculateSimilarityScore dupUsageComponent oneUsageComponent
          SimilarityType.usage ≤ 1) := by
  have hval : calculateSimilarityScore dupUsageComponent oneUsageComponent
      SimilarityType.usage = 2 := by
    simp only [calculateSimilarityScore, calculateUsageSimilarity,
      dupUsageComponent, oneUsageComponent, baseComponent]
    norm_num
  rw [hval]
  norm_num

/-- Witness for C8 (amended) at a concrete duplicate-free pair and mode. -/
theorem c8_witness :
    oneUsageComponent.usedIn.Nodup
      ∧ (0 ≤ calculateSimilarityScore oneUsageComponent dupUsageComponent
            SimilarityType.usage
          ∧ calculateSimilarityScore oneUsageComponent dupUsageComponent
            SimilarityType.usage ≤ 1) :=
  ⟨by decide,
    c8_amended oneUsageComponent dupUsageComponent SimilarityType.usage (by decide)⟩

/-! ### C3: correlation confidence -/

theorem top_score_pos {idx : ProjectIndex} {q : SearchQuery} {top : SearchResult}
    {rest : List SearchResult} (h : searchComponents idx q = top :: rest) :
    0 < top.relevanceScore := by
  have hmem : top ∈ searchComponents idx q := by
    rw [h]
    exact List.mem_cons_self _ _
  simp only [searchComponents] at hmem
  exact mem_searchResultsUnsorted (mem_sortByScoreDesc.mp hmem)

theorem matchStateOK_init (reason : String) : MatchStateOK ⟨none, 0, reason⟩ := by
  refine ⟨le_refl 0, by norm_num, by simp⟩

/-- A freshly assigned strategy state is in the envelope provided the top
score is positive, the divisor positive, and the cap within `(0, 0.9]`. -/
theorem matchStateOK_assign (c : ComponentIndex) (reason : String) (score : Int)
    (d cap : ℚ) (hscore : 0 < score) (hd : 0 < d) (hcap : 0 < cap)
    (hcap9 : cap ≤ 9 / 10) :
    MatchStateOK ⟨some c, min ((score : ℚ) / d) cap, reason⟩ := by
  have hpos : 0 < min ((score : ℚ) / d) cap := by
    apply lt_min _ hcap
    apply div_pos _ hd
    exact_mod_cast hscore
  refine ⟨le_of_lt hpos, le_trans (min_le_right _ _) hcap9, ?_⟩
  constructor
  · intro h0
    exact absurd h0 (ne_of_gt hpos)
  · intro h0
    cases h0

theorem textStrategy_ok (idx : ProjectIndex) (e : VisualElement) :
    MatchStateOK (textStrategy idx e) := by
  unfold textStrategy
  split
  · simp only []
    split
    · exact matchStateOK_init ""
    · next top rest heq =>
      exact matchStateOK_assign _ _ _ _ _ (top_score_pos heq) (by norm_num)
        (by norm_num) (by norm_num)
  · exact matchStateOK_init ""

theorem typeStrategy_ok (idx : ProjectIndex) (e : VisualElement) (s : MatchState)
    (h : MatchStateOK s) : MatchStateOK (typeStrategy idx e s) := by
  unfold typeStrategy
  split
  · simp only []
    split
    · exact h
    · split
      · next top rest heq hcond =>
        exact matchStateOK_assign _ _ _ _ _ (top_score_pos heq) (by norm_num)
          (by norm_num) (by norm_num)
      · exact h
  · exact h

theorem classStrategyStep_ok (idx : ProjectIndex) (s : MatchState) (cn : String)
    (h : MatchStateOK s) : MatchStateOK (classStrategyStep idx s cn) := by
  unfold classStrategyStep
  simp only []
  split
  · exact h
  · split
    · next top rest heq hcond =>
      exact matchStateOK_assign _ _ _ _ _ (top_score_pos heq) (by norm_num)
        (by norm_num) (by norm_num)
    · exact h

theorem foldl_classStrategyStep_ok (idx : ProjectIndex) (l : List String) :
    ∀ s : MatchState, MatchStateOK s →
      MatchStateOK (l.foldl (classStrategyStep idx) s) := by
  induction l with
  | nil => intro s h; exact h
  | cons c cs ih =>
    intro s h
    exact ih _ (classStrategyStep_ok idx s c h)

theorem classStrategy_ok (idx : ProjectIndex) (e : VisualElement) (s : MatchState)
    (h : MatchStateOK s) : MatchStateOK (classStrategy idx e s) := by
  unfold classStrategy
  split
  · exact foldl_classStrategyStep_ok idx _ s h
  · exact h

/-- **C3.** For every visual element and loaded index, the correlation's
confidence lies in `[0, 0.9]` and is `0` exactly when `sourceComponent` is
`null`; moreover, when the element's text is longer than 2 characters and the
text strategy's top search result has raw score 16, the confidence is
`min(16/20, 0.8) = 0.8` (the later strategies do not fire above `0.5`/`0.6`).
-/
theorem c3_confidence_bounds (idx : ProjectIndex) (e : VisualElement) :
    (0 ≤ (findComponentMatch idx e).confidence
      ∧ (findComponentMatch idx e).confidence ≤ 9 / 10
      ∧ ((findComponentMatch idx e).confidence = 0
          ↔ (findComponentMatch idx e).sourceComponent = none))
    ∧ ∀ top rest, 2 < e.text.length →
        searchComponents idx
            { emptyQuery with
                text := some e.text,
                componentType := some ComponentType.anyType } = top :: rest →
        top.relevanceScore = 16 →
        (findComponentMatch idx e).confidence = 8 / 10 := by
  have hproj : (findComponentMatch idx e).confidence
      = (classStrategy idx e (typeStrategy idx e (textStrategy idx e))).confidence := rfl
  have hproj2 : (findComponentMatch idx e).sourceComponent
      = (classStrategy idx e (typeStrategy idx e (textStrategy idx e))).bestMatch := rfl
  have hok : MatchStateOK (classStrategy idx e (typeStrategy idx e (textStrategy idx e))) :=
    classStrategy_ok idx e _ (typeStrategy_ok idx e _ (textStrategy_ok idx e))
  constructor
  · rw [hproj, hproj2]
    exact hok
  · intro top rest hlen hres hscore
    have hb1 : (textStrategy idx e).bestMatch = some top.component := by
      simp only [textStrategy, if_pos hlen, hres]
    have hc1 : (textStrategy idx e).confidence = 8 / 10 := by
      simp only [textStrategy, if_pos hlen, hres, hscore]
      norm_num
    have h2 : typeStrategy idx e (textStrategy idx e) = textStrategy idx e := by
      unfold typeStrategy
      rw [if_neg]
      intro hor
      rcases hor with hnone | hlow
      · rw [hb1] at hnone
        cases hnone
      · rw [hc1] at hlow
        norm_num at hlow
    have h3 : classStrategy idx e (textStrategy idx e) = textStrategy idx e := by
      unfold classStrategy
      rw [if_neg]
      intro hand
      rcases hand.1 with hnone | hlow
      · rw [hb1] at hnone
        cases hnone
      · rw [hc1] at hlow
        norm_num at hlow
    rw [hproj, h2, h3, hc1]

/-- Witness for C3's 16-score scenario at a concrete element and index. -/
theorem c3_witness :
    (2 < xyzElement.text.length
      ∧ searchComponents (singletonIndex xyzComponent)
          { emptyQuery with
              text := some xyzElement.text,
              componentType := some ComponentType.anyType } = xyzTopResult :: []
      ∧ xyzTopResult.relevanceScore = 16)
    ∧ (findComponentMatch (singletonIndex xyzComponent) xyzElement).confidence = 8 / 10 :=
  ⟨⟨by decide, by decide, by decide⟩,
    (c3_confidence_bounds (singletonIndex xyzComponent) xyzElement).2 xyzTopResult []
      (by decide) (by decide) (by decide)⟩

/-! ### C6: the matrix program computes the Levenshtein distance -/

theorem levSpec_nil_left (ys : List Char) : levenshteinSpec [] ys = ys.length := by
  rw [levenshteinSpec]

theorem levSpec_nil_right (xs : List Char) : levenshteinSpec xs [] = xs.length := by
  cases xs with
  | nil => rw [levenshteinSpec]
  | cons x xs => rw [levenshteinSpec]

theorem levSpec_cons_cons (x y : Char) (xs ys : List Char) :
    levenshteinSpec (x :: xs) (y :: ys)
      = if x = y then levenshteinSpec xs ys
        else
          1 + min (levenshteinSpec xs ys)
            (min (levenshteinSpec xs (y :: ys)) (levenshteinSpec (x :: xs) ys)) := by
  rw [levenshteinSpec]

theorem levSpec_self : ∀ xs : List Char, levenshteinSpec xs xs = 0
  | [] => by rw [levSpec_nil_left]; rfl
  | x :: xs => by rw [levSpec_cons_cons, if_pos rfl, levSpec_self xs]

theorem levSpec_comm : ∀ xs ys : List Char,
    levenshteinSpec xs ys = levenshteinSpec ys xs
  | [], ys => by rw [levSpec_nil_left, levSpec_nil_right]
  | x :: xs, [] => by rw [levSpec_nil_left, levSpec_nil_right]
  | x :: xs, y :: ys => by
    rw [levSpec_cons_cons, levSpec_cons_cons]
    by_cases h : x = y
    · rw [if_pos h, if_pos h.symm, levSpec_comm xs ys]
    · rw [if_neg h, if_neg (Ne.symm h)]
      have h1 := levSpec_comm xs ys
      have h2 := levSpec_comm xs (y :: ys)
      have h3 := levSpec_comm (x :: xs) ys
      omega
termination_by xs ys => xs.length + ys.length

/-- Distance from a list to a single character: `length - 1` when the
character occurs, else `max length 1`. -/
theorem levSpec_single_right (b : Char) : ∀ u : List Char,
    levenshteinSpec u [b] = if b ∈ u then u.length - 1 else max u.length 1
  | [] => by
    rw [levSpec_nil_left]
    simp
  | c :: u => by
    rw [levSpec_cons_cons]
    have ih := levSpec_single_right b u
    have hnil : levenshteinSpec u [] = u.length := levSpec_nil_right u
    have hcons : levenshteinSpec (c :: u) [] = u.length + 1 := levSpec_nil_right (c :: u)
    by_cases hc : c = b
    · rw [if_pos hc]
      have hmem : b ∈ c :: u := by simp [hc.symm]
      rw [if_pos hmem, hnil]
      simp
    · rw [if_neg hc]
      by_cases hmem : b ∈ u
      · rw [if_pos hmem] at ih
        rw [if_pos (List.mem_cons_of_mem c hmem)]
        have hu : 1 ≤ u.length := List.length_pos.mpr (List.ne_nil_of_mem hmem)
        simp only [List.length_cons]
        omega
      · rw [if_neg hmem] at ih
        have hnotmem : b ∉ c :: u := by
          simp [hc, hmem]
          exact fun hb => absurd hb.symm hc
        rw [if_neg hnotmem]
        simp only [List.length_cons]
        omega

set_option maxHeartbeats 3000000 in
/-- The Levenshtein recurrence also holds when peeling *trailing* characters —
the form the dynamic-programming matrix uses on prefixes. -/
theorem levSpec_snoc (a b : Char) : ∀ xs ys : List Char,
    levenshteinSpec (xs ++ [a]) (ys ++ [b])
      = if a = b then levenshteinSpec xs ys
        else
          1 + min (levenshteinSpec xs ys)
            (min (levenshteinSpec xs (ys ++ [b])) (levenshteinSpec (xs ++ [a]) ys))
  | [], [] => by
    simp only [List.nil_append]
    rw [levSpec_cons_cons]
  | x :: xs, [] => by
    simp only [List.nil_append]
    rw [levSpec_single_right b ((x :: xs) ++ [a]), levSpec_single_right b (x :: xs)]
    simp only [levSpec_nil_right]
    have hmem : b ∈ (x :: xs) ++ [a] ↔ b ∈ x :: xs ∨ b = a := by
      simp [List.mem_append, or_assoc]
    have hlen : ((x :: xs) ++ [a]).length = xs.length + 2 := by simp
    have hlen2 : (x :: xs).length = xs.length + 1 := by simp
    by_cases hab : a = b <;> by_cases hbxs : b ∈ x :: xs
    · rw [if_pos (hmem.mpr (Or.inl hbxs)), if_pos hbxs, if_pos hab]
      omega
    · rw [if_pos (hmem.mpr (Or.inr hab.symm)), if_neg hbxs, if_pos hab]
      omega
    · rw [if_pos (hmem.mpr (Or.inl hbxs)), if_pos hbxs, if_neg hab]
      omega
    · rw [if_neg (fun hh => (hmem.mp hh).elim hbxs (fun he => hab he.symm)),
        if_neg hbxs, if_neg hab]
      omega
  | [], y :: ys => by
    simp only [List.nil_append]
    rw [levSpec_comm [a] ((y :: ys) ++ [b]), levSpec_single_right a ((y :: ys) ++ [b]),
      levSpec_comm [a] (y :: ys), levSpec_single_right a (y :: ys)]
    simp only [levSpec_nil_left]
    have hmem : a ∈ (y :: ys) ++ [b] ↔ a ∈ y :: ys ∨ a = b := by
      simp [List.mem_append, or_assoc]
    have hlen : ((y :: ys) ++ [b]).length = ys.length + 2 := by simp
    have hlen2 : (y :: ys).length = ys.length + 1 := by simp
    by_cases hab : a = b <;> by_cases hays : a ∈ y :: ys
    · rw [if_pos (hmem.mpr (Or.inl hays)), if_pos hays, if_pos hab]
      omega
    · rw [if_pos (hmem.mpr (Or.inr hab)), if_neg hays, if_pos hab]
      omega
    · rw [if_pos (hmem.mpr (Or.inl hays)), if_pos hays, if_neg hab]
      omega
    · rw [if_neg (fun hh => (hmem.mp hh).elim hays hab), if_neg hays, if_neg hab]
      omega
  | x :: xs, y :: ys => by
    have ih1 := levSpec_snoc a b xs ys
    have ih2 := levSpec_snoc a b xs (y :: ys)
    have ih3 := levSpec_snoc a b (x :: xs) ys
    have e0 := levSpec_cons_cons x y (xs ++ [a]) (ys ++ [b])
    have e1 := levSpec_cons_cons x y xs ys
    have e2 := levSpec_cons_cons x y xs (ys ++ [b])
    have e3 := levSpec_cons_cons x y (xs ++ [a]) ys
    simp only [List.cons_append] at ih2 ih3 ⊢
    by_cases hab : a = b <;> by_cases hxy : x = y
    · rw [if_pos hab] at ih1 ih2 ih3 ⊢
      rw [if_pos hxy] at e0 e1 e2 e3
      omega
    · rw [if_pos hab] at ih1 ih2 ih3 ⊢
      rw [if_neg hxy] at e0 e1 e2 e3
      omega
    · rw [if_neg hab] at ih1 ih2 ih3 ⊢
      rw [if_pos hxy] at e0 e1 e2 e3
      omega
    · rw [if_neg hab] at ih1 ih2 ih3 ⊢
      rw [if_neg hxy] at e0 e1 e2 e3
      generalize levenshteinSpec (x :: (xs ++ [a])) (y :: (ys ++ [b])) = A at *
      generalize levenshteinSpec (x :: (xs ++ [a])) (y :: ys) = B at *
      generalize levenshteinSpec (x :: xs) (y :: (ys ++ [b])) = C at *
      generalize levenshteinSpec (x :: xs) (y :: ys) = D at *
      generalize levenshteinSpec (xs ++ [a]) (y :: (ys ++ [b])) = P at *
      generalize levenshteinSpec (x :: (xs ++ [a])) (ys ++ [b]) = Q at *
      generalize levenshteinSpec (xs ++ [a]) (ys ++ [b]) = E at *
      generalize levenshteinSpec (xs ++ [a]) (y :: ys) = F at *
      generalize levenshteinSpec (x :: (xs ++ [a])) ys = G at *
      generalize levenshteinSpec xs (y :: (ys ++ [b])) = H at *
      generalize levenshteinSpec (x :: xs) (ys ++ [b]) = I at *
      generalize levenshteinSpec xs (ys ++ [b]) = J at *
      generalize levenshteinSpec (xs ++ [a]) ys = K at *
      generalize levenshteinSpec xs (y :: ys) = L at *
      generalize levenshteinSpec (x :: xs) ys = M at *
      generalize levenshteinSpec xs ys = N at *
      rw [e0, ih1, ih2, ih3, e1, e2, e3]
      simp only [Nat.add_min_add_left]
      simp [min_assoc, min_comm, min_left_comm]
termination_by xs ys => xs.length + ys.length

/-- Correctness of the dynamic program: cell `(i, j)` is the Levenshtein
distance between the `j`-prefix of `str1` and the `i`-prefix of `str2`. -/
theorem levEntry_eq (s1 s2 : List Char) : ∀ i j, i ≤ s2.length → j ≤ s1.length →
    levEntry s1 s2 i j = levenshteinSpec (s1.take j) (s2.take i)
  | 0, j => fun _ hj => by
    rw [levEntry_zero_left, List.take_zero, levSpec_nil_right, List.length_take]
    omega
  | i + 1, 0 => fun hi _ => by
    rw [levEntry_succ_zero, List.take_zero, levSpec_nil_left, List.length_take]
    omega
  | i + 1, j + 1 => fun hi hj => by
    have hj1 : j < s1.length := by omega
    have hi1 : i < s2.length := by omega
    have hc1 : s1[j]? = some s1[j] := List.getElem?_eq_getElem hj1
    have hc2 : s2[i]? = some s2[i] := List.getElem?_eq_getElem hi1
    have ht1 : s1.take (j + 1) = s1.take j ++ [s1[j]] := by
      rw [List.take_succ, hc1]
      rfl
    have ht2 : s2.take (i + 1) = s2.take i ++ [s2[i]] := by
      rw [List.take_succ, hc2]
      rfl
    have h_ij := levEntry_eq s1 s2 i j (by omega) (by omega)
    have h_i1j := levEntry_eq s1 s2 (i + 1) j (by omega) (by omega)
    have h_ij1 := levEntry_eq s1 s2 i (j + 1) (by omega) (by omega)
    rw [ht2] at h_i1j
    rw [ht1] at h_ij1
    rw [levEntry_succ_succ, ht1, ht2, levSpec_snoc, hc1, hc2]
    by_cases hc : s1[j] = s2[i]
    · rw [if_pos (by rw [hc]), if_pos hc]
      exact h_ij
    · rw [if_neg (fun hss => hc (Option.some_inj.mp hss).symm), if_neg hc]
      rw [h_ij, h_i1j, h_ij1]
      omega
termination_by i j => i + j

/-- `IndexSearchEngine.levenshteinDistance` computes the Levenshtein
distance. -/
theorem levenshteinDistance_spec (str1 str2 : String) :
    levenshteinDistance str1 str2 = levenshteinSpec str1.toList str2.toList := by
  have h := levEntry_eq str1.toList str2.toList str2.toList.length
    str1.toList.length le_rfl le_rfl
  rw [levenshteinDistance, h, List.take_length, List.take_length]

/-- **C6.** `stringSimilarity(x, y)` equals
`(maxLen − levenshtein(x, y)) / maxLen` whenever the longer string is
non-empty, `stringSimilarity("","") = 1`, `stringSimilarity(x, x) = 1`, and
`stringSimilarity("kitten","sitting") = (7−3)/7`. -/
theorem c6_string_similarity (x y : String) :
    (0 < max x.length y.length →
      calculateStringSimilarity x y
        = (((max x.length y.length : ℕ) : ℚ)
            - (levenshteinSpec x.toList y.toList : ℚ))
          / ((max x.length y.length : ℕ) : ℚ))
    ∧ calculateStringSimilarity "" "" = 1
    ∧ calculateStringSimilarity x x = 1
    ∧ calculateStringSimilarity "kitten" "sitting" = (7 - 3) / 7 := by
  refine ⟨?_, ?_, ?_, ?_⟩
  · intro hpos
    unfold calculateStringSimilarity
    by_cases hgt : x.length > y.length
    · have hm : max x.length y.length = x.length := by omega
      rw [hm] at hpos ⊢
      simp only [if_pos hgt]
      rw [if_neg (by omega), levenshteinDistance_spec]
    · have hm : max x.length y.length = y.length := by omega
      rw [hm] at hpos ⊢
      simp only [if_neg hgt]
      rw [if_neg (by omega), levenshteinDistance_spec, levSpec_comm y.toList x.toList]
  · simp [calculateStringSimilarity]
  · unfold calculateStringSimilarity
    simp only [ite_self]
    by_cases hx : x.length = 0
    · rw [if_pos hx]
    · rw [if_neg hx, levenshteinDistance_spec, levSpec_self]
      have hpos : (x.length : ℚ) ≠ 0 := by
        have : 0 < x.length := Nat.pos_of_ne_zero hx
        positivity
      field_simp
  · have hd : levenshteinDistance "sitting" "kitten" = 3 := by decide
    have hlen : ¬ ("kitten".length > "sitting".length) := by decide
    have hlen7 : "sitting".length = 7 := by decide
    unfold calculateStringSimilarity
    simp only [if_neg hlen]
    rw [hd, hlen7]
    norm_num

/-- Witness for C6's general formula at a concrete pair of strings. -/
theorem c6_witness :
    0 < max "kitten".length "sitting".length
      ∧ calculateStringSimilarity "kitten" "sitting"
        = (((max "kitten".length "sitting".length : ℕ) : ℚ)
            - (levenshteinSpec "kitten".toList "sitting".toList : ℚ))
          / ((max "kitten".length "sitting".length : ℕ) : ℚ) :=
  ⟨by decide, (c6_string_similarity "kitten" "sitting").1 (by decide)⟩

/-! ### C1: the persistence round trip -/

theorem stringify_arr (l : List JsVal) :
    stringify (JsVal.arr l) = Json.arr (l.map stringify) := by
  rw [stringify]
  congr 1
  rw [List.attach_map_coe]

theorem stringify_obj (l : List (String × JsVal)) :
    stringify (JsVal.obj l) = Json.obj (l.map (fun p => (p.1, stringify p.2))) := by
  rw [stringify]
  congr 1
  exact List.attach_map_coe l (fun q => (q.1, stringify q.2))

theorem parseVal_arr (l : List Json) :
    parseVal (Json.arr l) = JsVal.arr (l.map parseVal) := by
  rw [parseVal]
  congr 1
  rw [List.attach_map_coe]

theorem parseVal_obj (l : List (String × Json)) :
    parseVal (Json.obj l) = JsVal.obj (l.map (fun p => (p.1, parseVal p.2))) := by
  rw [parseVal]
  congr 1
  exact List.attach_map_coe l (fun q => (q.1, parseVal q.2))

theorem mapDates_arr (l : List JsVal) :
    mapDates (JsVal.arr l) = JsVal.arr (l.map mapDates) := by
  rw [mapDates]
  congr 1
  rw [List.attach_map_coe]

theorem mapDates_obj (l : List (String × JsVal)) :
    mapDates (JsVal.obj l) = JsVal.obj (l.map (fun p => (p.1, mapDates p.2))) := by
  rw [mapDates]
  congr 1
  exact List.attach_map_coe l (fun q => (q.1, mapDates q.2))

theorem mapDates_date (d : JsDate) :
    mapDates (JsVal.date d) = JsVal.str (isoString d) := by
  rw [mapDates]

/-- `JSON.parse ∘ JSON.stringify` on an arbitrary in-memory value: the
identity except that every `Date` node comes back as its ISO string. -/
theorem parse_stringify : ∀ v : JsVal, parseVal (stringify v) = mapDates v
  | .str s => by rw [stringify, parseVal, mapDates]
  | .num n => by rw [stringify, parseVal, mapDates]
  | .bool b => by rw [stringify, parseVal, mapDates]
  | .null => by rw [stringify, parseVal, mapDates]
  | .date d => by rw [stringify, parseVal, mapDates_date]
  | .arr l => by
    rw [stringify_arr, parseVal_arr, mapDates_arr, List.map_map]
    congr 1
    apply List.map_congr_left
    intro x hx
    exact parse_stringify x
  | .obj l => by
    rw [stringify_obj, parseVal_obj, mapDates_obj, List.map_map]
    congr 1
    apply List.map_congr_left
    intro p hp
    simp only [Function.comp_apply]
    exact congrArg (fun w => (p.1, w)) (parse_stringify p.2)
termination_by v => sizeOf v
decreasing_by
  · have := List.sizeOf_lt_of_mem hx
    simp only [JsVal.arr.sizeOf_spec]
    omega
  · have h1 := List.sizeOf_lt_of_mem hp
    have h2 : sizeOf p.2 < sizeOf p := by
      obtain ⟨u, w⟩ := p
      simp only [Prod.mk.sizeOf_spec]
      omega
    simp only [JsVal.obj.sizeOf_spec]
    omega

/-- The serialised index always differs from the in-memory index: the
`metadata.lastIndexed` `Date` comes back as a string. -/
theorem roundTrip_ne_toVal (idx : ProjectIndex) :
    loadIndex (saveIndex idx) ≠ idx.toVal := by
  intro h
  rw [show loadIndex (saveIndex idx) = parseVal (stringify idx.toVal) from rfl,
    parse_stringify] at h
  rw [ProjectIndex.toVal, IndexMetadata.toVal] at h
  rw [mapDates_obj] at h
  simp only [List.map_cons, List.map_nil, mapDates_obj, mapDates_date] at h
  simp at h

/-- **C1 (amended).** `load(save(index))` does *not* return the index
field-for-field: it returns the index with every `Date` node
(`metadata.lastIndexed` and each component's `lastModified`) replaced by its
ISO-string serialisation, and therefore always differs from the original
in-memory value.  All other fields round-trip exactly (`mapDates` is the
identity on every non-`Date` node). -/
theorem c1_round_trip (idx : ProjectIndex) :
    loadIndex (saveIndex idx) = mapDates idx.toVal
      ∧ loadIndex (saveIndex idx) ≠ idx.toVal :=
  ⟨parse_stringify idx.toVal, roundTrip_ne_toVal idx⟩

/-- **C1 (counterexample).** At a concrete one-component index the loaded
artifact differs from the saved in-memory index (the `Date` fields have
become strings). -/
theorem c1_counterexample :
    loadIndex (saveIndex (singletonIndex baseComponent))
      ≠ (singletonIndex baseComponent).toVal :=
  roundTrip_ne_toVal (singletonIndex baseComponent)

/-! ### C5: the usage graph and the aliasing mutation -/

theorem mapGet_cons_pos {α : Type} (q : String × α) (m : List (String × α))
    (k : String) (h : q.1 = k) : mapGet (q :: m) k = some q.2 := by
  simp [mapGet, List.find?_cons_of_pos, h]

theorem mapGet_cons_neg {α : Type} (q : String × α) (m : List (String × α))
    (k : String) (h : q.1 ≠ k) : mapGet (q :: m) k = mapGet m k := by
  simp only [mapGet]
  rw [List.find?_cons_of_neg]
  simp [h]

theorem mapSet_append {α : Type} (m : List (String × α)) (k : String) (v : α)
    (h : ∀ p ∈ m, p.1 ≠ k) : mapSet m k v = m ++ [(k, v)] := by
  induction m with
  | nil => rfl
  | cons q m ih =>
    obtain ⟨k0, v0⟩ := q
    simp only [mapSet]
    rw [if_neg (h (k0, v0) (List.mem_cons_self _ _))]
    rw [ih (fun p hp => h p (List.mem_cons_of_mem _ hp))]
    simp

theorem mapSet_self {α : Type} (m : List (String × α)) (k : String) (v : α)
    (h : mapGet m k = some v) : mapSet m k v = m := by
  induction m with
  | nil => simp [mapGet] at h
  | cons q m ih =>
    obtain ⟨k0, v0⟩ := q
    simp only [mapSet]
    by_cases hq : k0 = k
    · rw [if_pos hq]
      rw [mapGet_cons_pos (k0, v0) m k hq] at h
      cases h
      rfl
    · rw [if_neg hq]
      rw [mapGet_cons_neg (k0, v0) m k hq] at h
      rw [ih h]

theorem seed_foldl : ∀ (l : List ComponentIndex) (k : Nat)
    (acc : List (String × UsageRef)),
    (l.map (fun c => c.id)).Nodup →
    (∀ p ∈ acc, ∀ c ∈ l, p.1 ≠ c.id) →
    (l.enumFrom k).foldl (fun g p => mapSet g p.2.id (UsageRef.comp p.1)) acc
      = acc ++ (l.enumFrom k).map (fun p => (p.2.id, UsageRef.comp p.1))
  | [], k, acc, _, _ => by simp
  | c :: t, k, acc, hnd, hacc => by
    rw [List.enumFrom_cons]
    simp only [List.foldl_cons, List.map_cons]
    rw [mapSet_append acc c.id (UsageRef.comp k)
      (fun p hp => hacc p hp c (List.mem_cons_self _ _))]
    rw [List.map_cons, List.nodup_cons] at hnd
    obtain ⟨hni, hnd2⟩ := hnd
    rw [seed_foldl t (k + 1) (acc ++ [(c.id, UsageRef.comp k)]) hnd2 ?_]
    · simp
    · intro p hp c2 hc2
      rcases List.mem_append.mp hp with hpa | hpc
      · exact hacc p hpa c2 (List.mem_cons_of_mem _ hc2)
      · have hp1 : p.1 = c.id := by
          have hpc2 : p = (c.id, UsageRef.comp k) := by simpa using hpc
          rw [hpc2]
        rw [hp1]
        intro hcontra
        exact hni (hcontra ▸ List.mem_map_of_mem _ hc2)

theorem seedGraph_eq (comps : List ComponentIndex)
    (hids : (comps.map (fun c => c.id)).Nodup) :
    seedGraph comps
      = (comps.enumFrom 0).map (fun p => (p.2.id, UsageRef.comp p.1)) := by
  have h := seed_foldl comps 0 [] hids (by simp)
  simpa [seedGraph, List.enum] using h

theorem mapGet_enumFrom_map {β : Type} (F : Nat → β) :
    ∀ (l : List ComponentIndex) (k j : Nat) (hj : j < l.length),
      (l.map (fun c => c.id)).Nodup →
      mapGet ((l.enumFrom k).map (fun p => (p.2.id, F p.1))) (l[j].id)
        = some (F (k + j))
  | [], _, j, hj, _ => absurd hj (by simp)
  | c :: t, k, 0, hj, hnd => by
    rw [List.enumFrom_cons]
    simp only [List.map_cons]
    rw [mapGet_cons_pos _ _ _ (by simp)]
    simp
  | c :: t, k, j + 1, hj, hnd => by
    rw [List.enumFrom_cons]
    simp only [List.map_cons]
    rw [List.map_cons, List.nodup_cons] at hnd
    obtain ⟨hni, hnd2⟩ := hnd
    have hjt : j < t.length := by
      simpa using Nat.lt_of_succ_lt_succ hj
    have hne : (c.id, F k).1 ≠ (c :: t)[j + 1].id := by
      rw [List.getElem_cons_succ]
      intro hcontra
      exact hni (by
        have : c.id = t[j].id := hcontra
        rw [this]
        exact List.mem_map_of_mem _ (t.getElem_mem hjt))
    rw [mapGet_cons_neg _ _ _ hne, List.getElem_cons_succ]
    have h := mapGet_enumFrom_map F t (k + 1) j hjt hnd2
    have heq : k + 1 + j = k + (j + 1) := by omega
    rw [heq] at h
    exact h

theorem withUsage_length (comps : List ComponentIndex) (u : Nat → List String) :
    (withUsage comps u).length = comps.length := by
  rw [withUsage, List.length_map, List.enum_length]

theorem withUsage_getElem? (comps : List ComponentIndex) (u : Nat → List String)
    (j : Nat) :
    (withUsage comps u)[j]? = (comps[j]?).map (fun c => { c with usedIn := u j }) := by
  simp only [withUsage, List.getElem?_map, List.getElem?_enum]
  cases comps[j]? <;> rfl

theorem withUsage_base (comps : List ComponentIndex) :
    withUsage comps (baseUsage comps) = comps := by
  apply List.ext_getElem?
  intro n
  rw [withUsage_getElem?]
  cases h : comps[n]? with
  | none => rfl
  | some c => simp [baseUsage, h]

theorem find?_withUsage (comps : List ComponentIndex) (u : Nat → List String)
    (n : String) :
    (withUsage comps u).find? (fun c => c.name = n)
      = (comps.enum.find? (fun p => p.2.name = n)).map
          (fun p => { p.2 with usedIn := u p.1 }) := by
  simp only [withUsage]
  rw [List.find?_map]
  rfl

theorem usageStep_sim (comps : List ComponentIndex)
    (hids : (comps.map (fun c => c.id)).Nodup) (pageId cname : String)
    (u : Nat → List String) :
    usageStep pageId ⟨withUsage comps u, seedGraph comps⟩ cname
      = ⟨withUsage comps (stepFn comps pageId cname u), seedGraph comps⟩ := by
  simp only [usageStep]
  rw [find?_withUsage]
  cases henum : comps.enum.find? (fun p => p.2.name = cname) with
  | none =>
    simp only [Option.map_none', stepFn, henum]
  | some p =>
    obtain ⟨i, c⟩ := p
    have hmem : ((i, c) : Nat × ComponentIndex) ∈ comps.enum :=
      List.mem_of_find?_eq_some henum
    have hget : comps[i]? = some c := List.mem_enum_iff_getElem?.mp hmem
    have hlen : i < comps.length := by
      rcases List.getElem?_eq_some.mp hget with ⟨hl, -⟩
      exact hl
    have hci : comps[i] = c := by
      rcases List.getElem?_eq_some.mp hget with ⟨hl, he⟩
      exact he
    have hg : mapGet (seedGraph comps)
        (({ c with usedIn := u i } : ComponentIndex)).id = some (UsageRef.comp i) := by
      show mapGet (seedGraph comps) c.id = some (UsageRef.comp i)
      rw [seedGraph_eq comps hids]
      have h := mapGet_enumFrom_map UsageRef.comp comps 0 i hlen hids
      rw [hci] at h
      simpa using h
    have hcomp : (withUsage comps u).get? i
        = some ({ c with usedIn := u i } : ComponentIndex) := by
      rw [List.get?_eq_getElem?, withUsage_getElem?, hget]
      rfl
    simp only [Option.map_some', hg, hcomp]
    by_cases hcont : (u i).contains pageId
    · rw [if_pos (by simpa using hcont)]
      have hfn : stepFn comps pageId cname u = u := by
        funext m
        simp only [stepFn, henum]
        by_cases hm : m = i
        · subst hm
          rw [if_pos rfl, if_pos hcont]
        · rw [if_neg hm]
      rw [hfn]
    · rw [if_neg (by simpa using hcont)]
      have hcomps : (withUsage comps u).set i
          { { c with usedIn := u i } with usedIn := u i ++ [pageId] }
          = withUsage comps (stepFn comps pageId cname u) := by
        apply List.ext_getElem?
        intro n
        rw [List.getElem?_set,
          withUsage_getElem? comps (stepFn comps pageId cname u) n]
        by_cases hn : i = n
        · subst hn
          rw [if_pos rfl, if_pos (by rw [withUsage_length]; exact hlen)]
          rw [hget]
          simp only [stepFn, henum, Option.map_some']
          rw [if_pos trivial, if_neg hcont]
        · rw [if_neg hn, withUsage_getElem? comps u n]
          cases hcn : comps[n]? with
          | none => rfl
          | some c2 =>
            simp only [stepFn, henum, Option.map_some']
            rw [if_neg (fun hcontra => hn hcontra.symm)]
      rw [hcomps]
      congr 1
      exact mapSet_self _ _ _ hg

theorem foldl_names_sim (comps : List ComponentIndex)
    (hids : (comps.map (fun c => c.id)).Nodup) (pageId : String) :
    ∀ (names : List String) (u : Nat → List String),
      names.foldl (usageStep pageId) ⟨withUsage comps u, seedGraph comps⟩
        = ⟨withUsage comps
            (names.foldl (fun uu n => stepFn comps pageId n uu) u),
          seedGraph comps⟩
  | [], _ => rfl
  | n :: names, u => by
    simp only [List.foldl_cons]
    rw [usageStep_sim comps hids pageId n u,
      foldl_names_sim comps hids pageId names (stepFn comps pageId n u)]

theorem runUsage_sim (comps : List ComponentIndex)
    (hids : (comps.map (fun c => c.id)).Nodup) :
    ∀ (pages : List PageIndex) (u : Nat → List String),
      pages.foldl (fun st page => page.components.foldl (usageStep page.id) st)
        ⟨withUsage comps u, seedGraph comps⟩
        = ⟨withUsage comps
            (pages.foldl
              (fun uu page => page.components.foldl
                (fun v n => stepFn comps page.id n v) uu) u),
          seedGraph comps⟩
  | [], _ => rfl
  | page :: pages, u => by
    simp only [List.foldl_cons]
    rw [foldl_names_sim comps hids page.id page.components u,
      runUsage_sim comps hids pages
        (page.components.foldl (fun v n => stepFn comps page.id n v) u)]

theorem runUsageGraph_eq (idx : ProjectIndex)
    (hids : (idx.components.map (fun c => c.id)).Nodup) :
    runUsageGraph idx
      = ⟨withUsage idx.components
          (idx.pages.foldl
            (fun uu page => page.components.foldl
              (fun v n => stepFn idx.components page.id n v) uu)
            (baseUsage idx.components)),
        seedGraph idx.components⟩ := by
  have h := runUsage_sim idx.components hids idx.pages (baseUsage idx.components)
  rw [withUsage_base] at h
  rw [runUsageGraph]
  exact h

theorem stepFn_at (comps : List ComponentIndex)
    (hnames : (comps.map (fun c => c.name)).Nodup)
    (pageId cname : String) (u : Nat → List String) (j : Nat)
    (hj : j < comps.length) :
    stepFn comps pageId cname u j
      = if comps[j].name = cname
        then (if (u j).contains pageId then u j else u j ++ [pageId])
        else u j := by
  cases henum : comps.enum.find? (fun p => p.2.name = cname) with
  | none =>
    have hne : ¬comps[j].name = cname := by
      have h := List.find?_eq_none.mp henum (j, comps[j])
        (List.mem_enum_iff_getElem?.mpr (List.getElem?_eq_getElem hj))
      simpa using h
    simp only [stepFn, henum]
    rw [if_neg hne]
  | some p =>
    obtain ⟨i, c⟩ := p
    have hmem : ((i, c) : Nat × ComponentIndex) ∈ comps.enum :=
      List.mem_of_find?_eq_some henum
    have hget : comps[i]? = some c := List.mem_enum_iff_getElem?.mp hmem
    have hlen : i < comps.length := (List.getElem?_eq_some.mp hget).1
    have hci : comps[i] = c := (List.getElem?_eq_some.mp hget).2
    have hcname : c.name = cname := by
      have h := List.find?_some henum
      simpa using h
    simp only [stepFn, henum]
    by_cases hji : j = i
    · subst hji
      have hname : comps[j].name = cname := by rw [hci, hcname]
      rw [if_pos (by trivial), if_pos hname]
    · rw [if_neg hji]
      have hne : ¬comps[j].name = cname := by
        intro heq
        have hj2 : j < (comps.map (fun c => c.name)).length := by simpa using hj
        have hi2 : i < (comps.map (fun c => c.name)).length := by simpa using hlen
        have hmm : (comps.map (fun c => c.name))[j]
            = (comps.map (fun c => c.name))[i] := by
          rw [List.getElem_map, List.getElem_map, hci, hcname, heq]
        exact hji (hnames.getElem_inj_iff.mp hmm)
      rw [if_neg hne]

theorem innerFold_at (comps : List ComponentIndex)
    (hnames : (comps.map (fun c => c.name)).Nodup) (pageId : String)
    (j : Nat) (hj : j < comps.length) :
    ∀ (names : List String) (u : Nat → List String),
      (names.foldl (fun v n => stepFn comps pageId n v) u) j
        = if names.contains comps[j].name && !((u j).contains pageId)
          then u j ++ [pageId] else u j
  | [], u => by simp
  | n :: names, u => by
    simp only [List.foldl_cons]
    rw [innerFold_at comps hnames pageId j hj names (stepFn comps pageId n u)]
    rw [stepFn_at comps hnames pageId n u j hj]
    by_cases hn : comps[j].name = n
    · rw [if_pos hn]
      by_cases hc : (u j).contains pageId
      · have hm : pageId ∈ u j := by simpa using hc
        rw [if_pos hc]
        simp [hm]
      · have hm : pageId ∉ u j := by simpa using hc
        rw [if_neg hc]
        simp [hm, hn]
    · rw [if_neg hn]
      simp [hn]

theorem bigFold_at (comps : List ComponentIndex)
    (hnames : (comps.map (fun c => c.name)).Nodup)
    (j : Nat) (hj : j < comps.length) :
    ∀ (pages : List PageIndex) (u : Nat → List String),
      (pages.foldl (fun uu page => page.components.foldl
          (fun v n => stepFn comps page.id n v) uu) u) j
        = pages.foldl
            (fun acc page =>
              if page.components.contains comps[j].name && !(acc.contains page.id)
              then acc ++ [page.id] else acc)
            (u j)
  | [], u => rfl
  | page :: pages, u => by
    simp only [List.foldl_cons]
    rw [bigFold_at comps hnames j hj pages
      (page.components.foldl (fun v n => stepFn comps page.id n v) u)]
    rw [innerFold_at comps hnames page.id j hj page.components u]

theorem mapGet_map {α β : Type} (f : α → β) (m : List (String × α)) (k : String) :
    mapGet (m.map (fun p => (p.1, f p.2))) k = (mapGet m k).map f := by
  induction m with
  | nil => rfl
  | cons q m ih =>
    obtain ⟨k0, v0⟩ := q
    by_cases h : k0 = k
    · simp only [List.map_cons]
      rw [mapGet_cons_pos ((k0, v0)) m k h, mapGet_cons_pos ((k0, f v0)) _ k h]
      rfl
    · simp only [List.map_cons]
      rw [mapGet_cons_neg ((k0, v0)) m k h, mapGet_cons_neg ((k0, f v0)) _ k h, ih]

/-- C5 (amended): for an index with distinct component ids and distinct
component names, `getComponentUsageGraph` maps each component's id to its
`usedIn` list extended by the ids of the pages referencing its name, each page
id appended at most once — but it does NOT leave the index unchanged: the
engine's components array comes back with every `usedIn` overwritten by that
same union, mutated through the aliased arrays stored in the graph. -/
theorem c5_amended (idx : ProjectIndex)
    (hids : (idx.components.map (fun c => c.id)).Nodup)
    (hnames : (idx.components.map (fun c => c.name)).Nodup) :
    (∀ j (hj : j < idx.components.length),
      mapGet (getComponentUsageGraph idx).1 (idx.components[j].id)
        = some (specUsage idx (idx.components[j])))
    ∧ (getComponentUsageGraph idx).2
        = idx.components.map (fun c => { c with usedIn := specUsage idx c }) := by
  have hrun := runUsageGraph_eq idx hids
  have hBF : ∀ (j : Nat) (hj : j < idx.components.length),
      (idx.pages.foldl
        (fun uu page => page.components.foldl
          (fun v n => stepFn idx.components page.id n v) uu)
        (baseUsage idx.components)) j
      = specUsage idx (idx.components[j]) := by
    intro j hj
    rw [bigFold_at idx.components hnames j hj idx.pages (baseUsage idx.components)]
    have hb : baseUsage idx.components j = (idx.components[j]).usedIn := by
      rw [baseUsage, List.getElem?_eq_getElem hj]
      rfl
    rw [hb]
    rfl
  have hg2 : (runUsageGraph idx).graph = seedGraph idx.components := by rw [hrun]
  have hc2 : (runUsageGraph idx).components
      = withUsage idx.components
          (idx.pages.foldl
            (fun uu page => page.components.foldl
              (fun v n => stepFn idx.components page.id n v) uu)
            (baseUsage idx.components)) := by rw [hrun]
  constructor
  · intro j hj
    simp only [getComponentUsageGraph]
    rw [hg2, hc2, mapGet_map, seedGraph_eq idx.components hids]
    have h := mapGet_enumFrom_map UsageRef.comp idx.components 0 j hj hids
    rw [Nat.zero_add] at h
    rw [h]
    simp only [Option.map_some', usageRefValue, List.get?_eq_getElem?,
      withUsage_getElem?, List.getElem?_eq_getElem hj, Option.map_some',
      Option.getD_some]
    rw [hBF j hj]
  · simp only [getComponentUsageGraph]
    rw [hc2]
    apply List.ext_getElem?
    intro n
    rw [withUsage_getElem?, List.getElem?_map]
    cases h : idx.components[n]? with
    | none => rfl
    | some c =>
      have hn : n < idx.components.length := (List.getElem?_eq_some.mp h).1
      have hceq : idx.components[n] = c := (List.getElem?_eq_some.mp h).2
      simp only [Option.map_some']
      rw [hBF n hn, hceq]

/-- C5 (counterexample): the claim says the call leaves the loaded
`ProjectIndex` unchanged, but on `graphIndex` (one component `C`, one page
referencing it) the engine's components array after the call differs from the
loaded one: the page id has been pushed onto the component's `usedIn` array
through the reference stored in the usage graph. -/
theorem c5_counterexample :
    (getComponentUsageGraph graphIndex).2 ≠ graphIndex.components := by
  decide

theorem c5_witness :
    ((graphIndex.components.map (fun c => c.id)).Nodup
      ∧ (graphIndex.components.map (fun c => c.name)).Nodup)
    ∧ (getComponentUsageGraph graphIndex).2
        = graphIndex.components.map
            (fun c => { c with usedIn := specUsage graphIndex c }) :=
  ⟨⟨by decide, by decide⟩, (c5_amended graphIndex (by decide) (by decide)).2⟩
